import Mathlib

/-!
Verification development for the evaluation engine of the source repository
(`backend/evaluator/*.py`, `backend/db/aggregation.py`,
`backend/providers/fireworks.py`).

Modelling conventions:
* Python floats are modelled by `ℚ` wherever the source only performs exact
  rational arithmetic, and by `ℝ` where the source takes square roots or
  fractional powers (cosine norms, `statistics.geometric_mean`).
* Python strings are modelled by `String` / `List Char`; `str.lower`,
  `str.split`, regular-expression scans and so on are spelled out as
  executable functions on character lists.
* Code that raises is modelled with `Except`; code that returns `None` on
  failure is modelled with `Option`.
* Special characters that are awkward as literals (brace, backtick,
  backslash, double quote) are named via `Char.ofNat`.
-/

/-- Left brace character. -/
def lbrace : Char := Char.ofNat 123

/-- Right brace character. -/
def rbrace : Char := Char.ofNat 125

/-- Backtick character. -/
def btick : Char := Char.ofNat 96

/-- Backslash character. -/
def bslash : Char := Char.ofNat 92

/-- Double-quote character. -/
def dquote : Char := Char.ofNat 34

/-- Newline character. -/
def nlChar : Char := Char.ofNat 10

/-- Carriage-return character. -/
def crChar : Char := Char.ofNat 13

/-- Tab character. -/
def tabChar : Char := Char.ofNat 9

/-- Form-feed character. -/
def ffChar : Char := Char.ofNat 12

/-- Vertical-tab character. -/
def vtChar : Char := Char.ofNat 11

/-- De-duplication worker: `seen` holds the elements already emitted. -/
def dedupAux {α : Type} [BEq α] (seen : List α) : List α → List α
  | [] => []
  | x :: r => if seen.contains x then dedupAux seen r else x :: dedupAux (x :: seen) r

/-- De-duplication keeping the *first* occurrence of each element, in order.
Models the insertion-order behaviour of Python `dict`/`set` construction. -/
def dedupF {α : Type} [BEq α] (l : List α) : List α := dedupAux [] l

namespace MetricsE

/-- `_safe_ratio` of `metrics.py`: returns 0 when the denominator is within
`1e-12` of zero, otherwise the quotient. -/
def safeRatio (numer denom : ℚ) : ℚ :=
  if |denom| < 1 / 10 ^ 12 then 0 else numer / denom

/-- `compute_compression_efficiency` of `metrics.py`: raises on negative
token counts, returns 0 on expansion, otherwise
`max 0 ((before - after) / max before 1)`. -/
def compute_compression_efficiency (tokens_before tokens_after : ℤ) : Except String ℚ :=
  if tokens_before < 0 ∨ tokens_after < 0 then .error "Token counts must be non-negative"
  else if tokens_after > tokens_before then .ok 0
  else .ok (max 0 (safeRatio ((tokens_before : ℚ) - (tokens_after : ℚ)) (max (tokens_before : ℚ) 1)))

/-- A regex word character (`\w` over the ASCII inputs at hand). -/
def isWordChar (c : Char) : Bool := c.isAlphanum || c == '_'

/-- A `\b` boundary holds before the current position: start of string or a
preceding non-word character. -/
def boundaryBefore (prev : Option Char) : Bool :=
  match prev with
  | none => true
  | some c => !isWordChar c

/-- A `\b` boundary holds after a match ending before `l`. -/
def boundaryAfter (l : List Char) : Bool :=
  match l with
  | [] => true
  | c :: _ => !isWordChar c

/-- Left-to-right non-overlapping scan for `\b(19|20)\d{2}\b` of
`metrics.py` (`_YEAR_RE`).  Because the pattern has one capture group,
Python `findall` returns the *group* matches, i.e. only the two-character
century prefixes `"19"` / `"20"`, not the full years; the scan models that
by emitting `String.mk [c0, c1]`. -/
def yearScan : Option Char → List Char → List String
  | _, [] => []
  | _, [_] => []
  | _, [_, _] => []
  | _, [_, _, _] => []
  | prev, c0 :: c1 :: c2 :: c3 :: rest2 =>
    if boundaryBefore prev && (((c0 == '1') && (c1 == '9')) || ((c0 == '2') && (c1 == '0')))
        && c2.isDigit && c3.isDigit && boundaryAfter rest2 then
      String.mk [c0, c1] :: yearScan (some c3) rest2
    else
      yearScan (some c0) (c1 :: c2 :: c3 :: rest2)

/-- Shape of an ISO date `\d{4}-\d{2}-\d{2}` (exactly ten characters). -/
def dateShape (l : List Char) : Bool :=
  match l with
  | [a, b, c, d, e, f, g, h, i, j] =>
    a.isDigit && b.isDigit && c.isDigit && d.isDigit && (e == '-')
      && f.isDigit && g.isDigit && (h == '-') && i.isDigit && j.isDigit
  | _ => false

/-- Left-to-right non-overlapping scan for `\b\d{4}-\d{2}-\d{2}\b` of
`metrics.py` (`_ISO_DATE_RE`); this pattern has no group, so `findall`
returns the full ten-character matches. -/
def dateScan : Option Char → List Char → List String
  | prev, c0 :: c1 :: c2 :: c3 :: c4 :: c5 :: c6 :: c7 :: c8 :: c9 :: rest2 =>
    if boundaryBefore prev && dateShape [c0, c1, c2, c3, c4, c5, c6, c7, c8, c9]
        && boundaryAfter rest2 then
      String.mk [c0, c1, c2, c3, c4, c5, c6, c7, c8, c9] :: dateScan (some c9) rest2
    else
      dateScan (some c0) (c1 :: c2 :: c3 :: c4 :: c5 :: c6 :: c7 :: c8 :: c9 :: rest2)
  | _, _ => []

/-- The set (as a first-occurrence de-duplicated list) of temporal markers of
one text: the `findall` results of the year pattern unioned with those of the
date pattern, as built by `compute_temporal_coherence` in `metrics.py`. -/
def markerSet (s : String) : List String :=
  dedupF (yearScan none s.data ++ dateScan none s.data)

/-- `compute_temporal_coherence` of `metrics.py`: `None` when either side has
no temporal markers, otherwise the (clipped) Jaccard similarity of the two
marker sets. -/
def compute_temporal_coherence (context_sent context_received : String) : Option ℚ :=
  let aM := markerSet context_sent
  let bM := markerSet context_received
  if aM.isEmpty || bM.isEmpty then none
  else
    let inter := (aM.filter (fun x => bM.contains x)).length
    let union := (dedupF (aM ++ bM)).length
    some (max 0 (min 1 (safeRatio (inter : ℚ) (union : ℚ))))

mutual

/-- `_tokenize` of `metrics.py`: lowercase maximal `[A-Za-z0-9]+` runs
(`findall` of `[A-Za-z0-9]+` followed by `str.lower`). -/
def tokenizeCh : List Char → List String
  | [] => []
  | c :: rest =>
    if c.isAlphanum then tokenRun [c.toLower] rest
    else tokenizeCh rest

/-- Continuation of `tokenizeCh` inside a maximal alphanumeric run;
`acc` holds the run read so far, reversed. -/
def tokenRun (acc : List Char) : List Char → List String
  | [] => [String.mk acc.reverse]
  | c :: rest =>
    if c.isAlphanum then tokenRun (c.toLower :: acc) rest
    else String.mk acc.reverse :: tokenizeCh rest

end

/-- String-level tokenizer. -/
def tokenize (s : String) : List String := tokenizeCh s.data

/-- Number of occurrences of token `t` (a `Counter` count). -/
def countTok (toks : List String) (t : String) : ℕ :=
  (toks.filter (fun x => x == t)).length

/-- Stable insertion for a descending sort by count: an element is placed
after every element of count ≥ its own, modelling the stability of
`Counter.most_common` / Python `sorted(..., reverse=True)`. -/
def insertByCountDesc (cnt : String → ℕ) (x : String) : List String → List String
  | [] => [x]
  | y :: r => if cnt x > cnt y then x :: y :: r else y :: insertByCountDesc cnt x r

/-- Stable descending sort by count. -/
def sortByCountDesc (cnt : String → ℕ) (l : List String) : List String :=
  l.foldl (fun acc x => insertByCountDesc cnt x acc) []

/-- `_top_k_terms` of `metrics.py` (`Counter.most_common(k)`): the distinct
tokens in first-occurrence order, stably sorted by descending count, first
`k` taken. -/
def topKTerms (toks : List String) (k : ℕ) : List String :=
  (sortByCountDesc (countTok toks) (dedupF toks)).take k

/-- `_cosine_similarity` of `metrics.py` on rational coordinate vectors (the
shape check is done by the caller model).  The source tests
`‖a‖ < 1e-12`; since norms are nonnegative this is equivalent to the
rational test `‖a‖² < (1e-12)²` used here, which keeps the branch
decidable. -/
noncomputable def cosineQ (a b : List ℚ) : ℝ :=
  let dot : ℚ := ((a.zip b).map (fun p => p.1 * p.2)).sum
  let na2 : ℚ := (a.map (fun x => x * x)).sum
  let nb2 : ℚ := (b.map (fun x => x * x)).sum
  if na2 < (1 / 10 ^ 12) ^ 2 ∨ nb2 < (1 / 10 ^ 12) ^ 2 then 0
  else (dot : ℝ) / (Real.sqrt (na2 : ℝ) * Real.sqrt (nb2 : ℝ))

/-- `_cosine_on_term_freq` of `metrics.py`: cosine over term-frequency
vectors on the combined vocabulary.  The source materialises the vocabulary
as `list(set(...))` in unspecified order; the cosine value does not depend
on the order, and the model fixes first-occurrence order. -/
noncomputable def cosineOnTermFreq (aT bT : List String) : ℝ :=
  let vocab := dedupF (aT ++ bT)
  if vocab.isEmpty then 0
  else cosineQ (vocab.map (fun t => (countTok aT t : ℚ))) (vocab.map (fun t => (countTok bT t : ℚ)))

/-- `compute_fidelity` of `metrics.py`: cosine of supplied vectors mapped
from `[-1,1]` to `[0,1]` (raising on mismatched shapes), else cosine on
term-frequency vectors; clipped to `[0,1]` in both cases. -/
noncomputable def compute_fidelity (context_sent context_received : String)
    (sent_vec received_vec : Option (List ℚ)) : Except String ℝ :=
  match sent_vec, received_vec with
  | some a, some b =>
    if a.length ≠ b.length then .error "Vector shapes must match"
    else .ok (max 0 (min 1 ((1 / 2 : ℝ) * (cosineQ a b + 1))))
  | _, _ =>
    .ok (max 0 (min 1 (cosineOnTermFreq (tokenize context_sent) (tokenize context_received))))

/-- `compute_relevance_drift` of `metrics.py`: blend of `1 - fidelity` with
top-term Jaccard drift; when both top-term sets are empty the base drift is
returned alone. -/
noncomputable def compute_relevance_drift (context_sent context_received : String)
    (sent_vec received_vec : Option (List ℚ)) (topk : ℕ) : Except String ℝ := do
  let fid ← compute_fidelity context_sent context_received sent_vec received_vec
  let baseDrift := 1 - fid
  let aTop := topKTerms (tokenize context_sent) topk
  let bTop := topKTerms (tokenize context_received) topk
  if aTop.isEmpty && bTop.isEmpty then pure baseDrift
  else
    let jacc : ℚ := safeRatio ((aTop.filter (fun x => bTop.contains x)).length : ℚ)
      ((dedupF (aTop ++ bTop)).length : ℚ)
    let termDrift : ℚ := 1 - jacc
    pure (max 0 (min 1 ((1 / 2 : ℝ) * baseDrift + (1 / 2 : ℝ) * (termDrift : ℝ))))

/-- `evaluate_handoff` of `metrics.py`: the metric tuple
`(fidelity, drift, compression, temporal)`, with compression defaulting to 0
when either token count is absent. -/
noncomputable def evaluate_handoff (context_sent context_received : String)
    (tokens_before tokens_after : Option ℤ)
    (sent_vec received_vec : Option (List ℚ)) : Except String (ℝ × ℝ × ℚ × Option ℚ) := do
  let fid ← compute_fidelity context_sent context_received sent_vec received_vec
  let dr ← compute_relevance_drift context_sent context_received sent_vec received_vec 10
  let comp : ℚ ←
    match tokens_before, tokens_after with
    | some tb, some ta => compute_compression_efficiency tb ta
    | _, _ => pure 0
  pure (fid, dr, comp, compute_temporal_coherence context_sent context_received)

end MetricsE

namespace ExtractE

/-- `startsWith` on character lists. -/
def startsWithCh : List Char → List Char → Bool
  | _, [] => true
  | [], _ :: _ => false
  | h :: hr, n :: nr => h == n && startsWithCh hr nr

/-- Python `needle in hay` substring containment on character lists. -/
def containsCh (needle : List Char) : List Char → Bool
  | [] => startsWithCh [] needle
  | c :: r => startsWithCh (c :: r) needle || containsCh needle r

/-- `compute_key_info_preserved` of `extract.py`: first `limit` units
extracted from `sent`, kept when their lowercase form is a substring of the
lowercase receiver text.  The unit extractor `extract_key_units` is passed
as a parameter: no claim constrains its output, and all theorems below hold
for every extractor. -/
def compute_key_info_preserved (extractKeyUnits : String → List String)
    (sent received : String) (limit : ℕ) : List String :=
  ((extractKeyUnits sent).take limit).filter
    (fun u => containsCh u.toLower.data received.toLower.data)

end ExtractE

namespace SchemaE

/-- `EvalScores` of `schema.py`.  Score fields are reals because the service
fills them with cosine-based values. -/
structure EvalScores where
  fidelity : ℝ
  drift : ℝ
  compression : ℝ
  temporal_coherence : Option ℝ
  response_utility : Option ℝ

/-- `VectorBundle` of `schema.py`. -/
structure VectorBundle where
  sent : Option (List ℚ)
  received : Option (List ℚ)
  output : Option (List ℚ)

/-- Values of the open `metadata` map of a handoff document. -/
inductive MetaVal where
  | mstr (s : String)
  | mnone
  | mtokens (before after : ℤ)
deriving DecidableEq

/-- The open string-keyed `metadata` map, in insertion order. -/
abbrev MetaMap := List (String × MetaVal)

/-- `HandoffEvaluation` of `schema.py` (lines 78-109).  The model lists
exactly the declared pydantic fields; note that the schema declares **no**
`pipeline_id` field.  The wall-clock `timestamp` is modelled as `Unit`. -/
structure HandoffEvaluation where
  handoff_id : String
  agent_from : String
  agent_to : String
  context_sent : String
  context_received : String
  eval_scores : EvalScores
  vectors : Option VectorBundle
  key_info_preserved : List String
  metadata : MetaMap
  timestamp : Unit

/-- `PipelineScore` of `schema.py`. -/
structure PipelineScore where
  avg_fidelity : ℝ
  avg_drift : ℝ
  total_compression : ℝ
  end_to_end_fidelity : ℝ

/-- `PipelineEvaluation` of `schema.py`. -/
structure PipelineEvaluation where
  pipeline_id : String
  handoffs : List HandoffEvaluation
  overall_pipeline_score : PipelineScore

end SchemaE

namespace AggE

/-- A BSON value of a persisted handoff document (`model_dump` output). -/
inductive BVal where
  | bstr (s : String)
  | bscores (s : SchemaE.EvalScores)
  | bnone
  | bvec (v : SchemaE.VectorBundle)
  | blist (l : List String)
  | bmeta (m : SchemaE.MetaMap)
  | btime

/-- A persisted MongoDB document: a list of field/value pairs. -/
abbrev Document := List (String × BVal)

/-- `model_dump(by_alias=True)` of a `schema.HandoffEvaluation`: one pair per
declared pydantic field.  Since the schema declares no `pipeline_id` field,
the dumped document has no `pipeline_id` key. -/
def dumpHandoff (h : SchemaE.HandoffEvaluation) : Document :=
  [("handoff_id", .bstr h.handoff_id),
   ("agent_from", .bstr h.agent_from),
   ("agent_to", .bstr h.agent_to),
   ("context_sent", .bstr h.context_sent),
   ("context_received", .bstr h.context_received),
   ("eval_scores", .bscores h.eval_scores),
   ("vectors", (match h.vectors with | none => .bnone | some v => .bvec v)),
   ("key_info_preserved", .blist h.key_info_preserved),
   ("metadata", .bmeta h.metadata),
   ("timestamp", .btime)]

/-- `insert_handoff` of `aggregation.py`: append the dumped document to the
`eval_handoffs` collection (modelled as a list in insertion order). -/
def insert_handoff (store : List Document) (h : SchemaE.HandoffEvaluation) : List Document :=
  store ++ [dumpHandoff h]

/-- Mongo `find({"pipeline_id": p})` equality test on one document. -/
def matchesPipeline (p : String) (d : Document) : Bool :=
  match List.lookup "pipeline_id" d with
  | some (.bstr s) => s == p
  | _ => false

/-- Pydantic re-validation `HandoffEvaluation(**doc)` of a fetched document
(extra fields such as `_id` ignored, missing required fields rejected). -/
def docToHandoff (d : Document) : Option SchemaE.HandoffEvaluation :=
  match List.lookup "handoff_id" d, List.lookup "agent_from" d, List.lookup "agent_to" d,
      List.lookup "context_sent" d, List.lookup "context_received" d,
      List.lookup "eval_scores" d with
  | some (.bstr hid), some (.bstr af), some (.bstr ag), some (.bstr cs), some (.bstr cr),
      some (.bscores es) =>
    some { handoff_id := hid, agent_from := af, agent_to := ag, context_sent := cs,
           context_received := cr, eval_scores := es,
           vectors := (match List.lookup "vectors" d with | some (.bvec v) => some v | _ => none),
           key_info_preserved :=
             (match List.lookup "key_info_preserved" d with | some (.blist l) => l | _ => []),
           metadata := (match List.lookup "metadata" d with | some (.bmeta m) => m | _ => []),
           timestamp := () }
  | _, _, _, _, _, _ => none

/-- `get_handoffs_by_pipeline` of `aggregation.py`: all documents whose
`pipeline_id` field equals the id, re-validated. -/
def get_handoffs_by_pipeline (store : List Document) (pipeline_id : String) :
    List SchemaE.HandoffEvaluation :=
  (store.filter (matchesPipeline pipeline_id)).filterMap docToHandoff

/-- Python `round(x, 4)` rounds to the nearest multiple of `1e-4` with ties
to even; `roundHalfEven` is the integer-valued core. -/
noncomputable def roundHalfEven (x : ℝ) : ℤ :=
  if x - ⌊x⌋ < 1 / 2 then ⌊x⌋
  else if 1 / 2 < x - ⌊x⌋ then ⌊x⌋ + 1
  else if Even ⌊x⌋ then ⌊x⌋ else ⌊x⌋ + 1

/-- Python `round(x, 4)`. -/
noncomputable def pyRound4 (x : ℝ) : ℝ :=
  ((roundHalfEven (x * 10000) : ℤ) : ℝ) / 10000

/-- `statistics.geometric_mean`: the `n`-th root of the product of the `n`
data points (the source computes `exp(fmean(log x))`, identical for positive
data). -/
noncomputable def geometricMean (l : List ℝ) : ℝ :=
  l.prod ^ ((1 : ℝ) / (l.length : ℝ))

/-- `compute_pipeline_rollup` of `aggregation.py`: all-zero score for an
empty list; otherwise the three arithmetic means and the geometric mean of
the fidelities floored at `1e-6`, each rounded to 4 decimal places.  (The
source wraps `geometric_mean` in `try/except`, but with a nonempty list of
terms floored at the positive `1e-6` no exception is reachable.) -/
noncomputable def compute_pipeline_rollup (handoffs : List SchemaE.HandoffEvaluation) :
    SchemaE.PipelineScore :=
  if handoffs.isEmpty then
    { avg_fidelity := 0, avg_drift := 0, total_compression := 0, end_to_end_fidelity := 0 }
  else
    let fidelities := handoffs.map (fun h => h.eval_scores.fidelity)
    let drifts := handoffs.map (fun h => h.eval_scores.drift)
    let compressions := handoffs.map (fun h => h.eval_scores.compression)
    let avgF := fidelities.sum / (fidelities.length : ℝ)
    let avgD := drifts.sum / (drifts.length : ℝ)
    let totC := compressions.sum / (compressions.length : ℝ)
    let e2e := geometricMean (fidelities.map (fun f => max f (1 / 10 ^ 6)))
    { avg_fidelity := pyRound4 avgF, avg_drift := pyRound4 avgD,
      total_compression := pyRound4 totC, end_to_end_fidelity := pyRound4 e2e }

/-- Arithmetic mean of the fidelities of a handoff list (specification-side
definition, for comparison with the rollup). -/
noncomputable def avgFidelity (hs : List SchemaE.HandoffEvaluation) : ℝ :=
  (hs.map (fun h => h.eval_scores.fidelity)).sum / (hs.length : ℝ)

/-- Arithmetic mean of the drifts. -/
noncomputable def avgDrift (hs : List SchemaE.HandoffEvaluation) : ℝ :=
  (hs.map (fun h => h.eval_scores.drift)).sum / (hs.length : ℝ)

/-- Arithmetic mean of the compressions. -/
noncomputable def avgCompression (hs : List SchemaE.HandoffEvaluation) : ℝ :=
  (hs.map (fun h => h.eval_scores.compression)).sum / (hs.length : ℝ)

/-- Geometric mean of the fidelities, each floored at `1e-6`. -/
noncomputable def geoFidelity (hs : List SchemaE.HandoffEvaluation) : ℝ :=
  geometricMean (hs.map (fun h => max h.eval_scores.fidelity (1 / 10 ^ 6)))

/-- The `eval_pipelines` collection: pipeline summaries keyed by
`pipeline_id`. -/
abbrev PipeStore := List (String × SchemaE.PipelineScore × List SchemaE.HandoffEvaluation)

/-- `upsert_pipeline_rollup` of `aggregation.py`: replace-or-insert keyed by
`pipeline_id`. -/
def upsert_pipeline_rollup (pstore : PipeStore) (pipeline_id : String)
    (score : SchemaE.PipelineScore) (handoffs : List SchemaE.HandoffEvaluation) : PipeStore :=
  match pstore with
  | [] => [(pipeline_id, score, handoffs)]
  | (k, v) :: r =>
    if k == pipeline_id then (pipeline_id, score, handoffs) :: r
    else (k, v) :: upsert_pipeline_rollup r pipeline_id score handoffs

end AggE

namespace ServiceE

/-- Python `str.split()`: split on whitespace runs, dropping empty pieces. -/
def pySplit (s : String) : List String :=
  (s.split (fun c => c.isWhitespace)).filter (fun t => !(t == ""))

/-- `_count_tokens` of `service.py`: whitespace token count. -/
def countTokens (text : String) : ℕ :=
  if text == "" then 0 else (pySplit text).length

/-- The metadata actually attached by `evaluate_and_store_handoff`
(service.py:94): Python `metadata or {...}` keeps a caller-supplied
*non-empty* map unchanged, and only a missing or empty map is replaced by
the default `{"format": None, "tokens": {"before": tb, "after": ta}}`
(where `metadata.get("format") if metadata else None` evaluates to `None`
whenever the default is built at all). -/
def buildMetadata (metadata : Option SchemaE.MetaMap) (tb ta : ℤ) : SchemaE.MetaMap :=
  match metadata with
  | some m =>
    if m.isEmpty then [("format", .mnone), ("tokens", .mtokens tb ta)] else m
  | none => [("format", .mnone), ("tokens", .mtokens tb ta)]

/-- `EvaluatorService.evaluate_and_store_handoff` of `service.py`: count
tokens when not supplied, compute the metric tuple, assemble the
`schema.HandoffEvaluation`, persist it, and return it together with the new
store state.

The source passes `pipeline_id=pipeline_id` to the `HandoffEvaluation`
constructor (service.py:85), but `schema.HandoffEvaluation` declares no such
field (schema.py:78-109) and pydantic's default `extra='ignore'`
configuration silently drops unknown keyword arguments, so the constructed
and persisted document carries no pipeline id; the model therefore does not
use the `pipeline_id` argument when building the document. -/
noncomputable def evaluate_and_store_handoff
    (extractKeyUnits : String → List String)
    (store : List AggE.Document)
    (pipeline_id handoff_id agent_from agent_to context_sent context_received : String)
    (tokens_before tokens_after : Option ℤ)
    (sent_vec received_vec : Option (List ℚ))
    (metadata : Option SchemaE.MetaMap) :
    Except String (SchemaE.HandoffEvaluation × List AggE.Document) := do
  let _ := pipeline_id
  let tb : ℤ := tokens_before.getD (countTokens context_sent : ℤ)
  let ta : ℤ := tokens_after.getD (countTokens context_received : ℤ)
  let r ← MetricsE.evaluate_handoff context_sent context_received (some tb) (some ta)
    sent_vec received_vec
  let keyPreserved := ExtractE.compute_key_info_preserved extractKeyUnits
    context_sent context_received 20
  let scores : SchemaE.EvalScores :=
    { fidelity := r.1, drift := r.2.1, compression := (r.2.2.1 : ℝ),
      temporal_coherence := r.2.2.2.map (fun q => (q : ℝ)), response_utility := none }
  let doc : SchemaE.HandoffEvaluation :=
    { handoff_id := handoff_id, agent_from := agent_from, agent_to := agent_to,
      context_sent := context_sent, context_received := context_received,
      eval_scores := scores, vectors := none, key_info_preserved := keyPreserved,
      metadata := buildMetadata metadata tb ta, timestamp := () }
  pure (doc, AggE.insert_handoff store doc)

/-- `EvaluatorService.finalize_pipeline` of `service.py`: load all handoffs
for the id, recompute the rollup, upsert the summary, return the full
evaluation (paired with the new `eval_pipelines` state). -/
noncomputable def finalize_pipeline (store : List AggE.Document) (pstore : AggE.PipeStore)
    (pipeline_id : String) : SchemaE.PipelineEvaluation × AggE.PipeStore :=
  let handoffs := AggE.get_handoffs_by_pipeline store pipeline_id
  let score := AggE.compute_pipeline_rollup handoffs
  ({ pipeline_id := pipeline_id, handoffs := handoffs, overall_pipeline_score := score },
   AggE.upsert_pipeline_rollup pstore pipeline_id score handoffs)

end ServiceE

namespace JsonE

/-!
Model of the JSON values exchanged with the judge provider, of the Python
`json` collaborator (`json.dumps` / `json.loads`), and of the extraction
cascade `_extract_json` of `judge.py`.

Strings are lists of characters escaped with `\"`, `\\`, `\n`, `\t`, `\r`
(the `\uXXXX`, `\b`, `\f` escapes of full JSON are not exercised by any
claim and are left out); numbers are integers.  The parser is fuelled; the
fuel supplied by `loadsL` is always sufficient (see the round-trip theorems
below). -/

/-- JSON values. -/
inductive EJson where
  | null
  | bool (b : Bool)
  | num (n : ℤ)
  | str (s : List Char)
  | arr (l : List EJson)
  | obj (l : List (List Char × EJson))

/-- JSON inter-token whitespace. -/
def isJsonWs (c : Char) : Bool :=
  c == ' ' || c == nlChar || c == crChar || c == tabChar

/-- Python regex `\s`. -/
def isPyWs (c : Char) : Bool :=
  c == ' ' || c == nlChar || c == crChar || c == tabChar || c == ffChar || c == vtChar

/-- Decimal digit character for a value below ten. -/
def digitCh (d : ℕ) : Char := Char.ofNat (48 + d)

/-- Value of a decimal digit character. -/
def digitVal (c : Char) : ℕ := c.toNat - 48

/-- Fuelled base-10 digit extraction, least significant first (an
executable stand-in for `Nat.digits 10`; see `digitsRev_eq_digits`). -/
def digitsRev : ℕ → ℕ → List ℕ
  | 0, _ => []
  | f + 1, n => if n = 0 then [] else n % 10 :: digitsRev f (n / 10)

/-- Decimal print of a natural number. -/
def dumpsNat (n : ℕ) : List Char :=
  if n = 0 then [digitCh 0] else ((digitsRev n n).map digitCh).reverse

/-- Decimal print of an integer. -/
def dumpsInt (n : ℤ) : List Char :=
  if n < 0 then '-' :: dumpsNat n.natAbs else dumpsNat n.toNat

/-- JSON escape of one string character. -/
def escChar (c : Char) : List Char :=
  if c == dquote then [bslash, dquote]
  else if c == bslash then [bslash, bslash]
  else if c == nlChar then [bslash, 'n']
  else if c == tabChar then [bslash, 't']
  else if c == crChar then [bslash, 'r']
  else [c]

/-- JSON escape of a string body. -/
def escapeStr (s : List Char) : List Char :=
  s.foldr (fun c acc => escChar c ++ acc) []

/-- The serialization of the `null` keyword. -/
def litNull : List Char := ['n', 'u', 'l', 'l']

/-- The serialization of the `true` keyword. -/
def litTrue : List Char := ['t', 'r', 'u', 'e']

/-- The serialization of the `false` keyword. -/
def litFalse : List Char := ['f', 'a', 'l', 's', 'e']

mutual

/-- `json.dumps` with the default separators `", "` and `": "`. -/
def dumpsV : EJson → List Char
  | .null => litNull
  | .bool true => litTrue
  | .bool false => litFalse
  | .num n => dumpsInt n
  | .str s => dquote :: (escapeStr s ++ [dquote])
  | .arr l => '[' :: (dumpsElems l ++ [']'])
  | .obj l => lbrace :: (dumpsMembers l ++ [rbrace])

/-- Array elements joined by `", "`. -/
def dumpsElems : List EJson → List Char
  | [] => []
  | [x] => dumpsV x
  | x :: y :: r => dumpsV x ++ ',' :: ' ' :: dumpsElems (y :: r)

/-- Object members `"key": value` joined by `", "`. -/
def dumpsMembers : List (List Char × EJson) → List Char
  | [] => []
  | [(k, v)] => dquote :: (escapeStr k ++ dquote :: ':' :: ' ' :: dumpsV v)
  | (k, v) :: p :: r =>
    (dquote :: (escapeStr k ++ dquote :: ':' :: ' ' :: dumpsV v)) ++ ',' :: ' ' :: dumpsMembers (p :: r)

end

/-- Well-formedness of a value as the image of a Python object: object keys
are pairwise distinct at every level (a Python `dict` cannot carry duplicate
keys). -/
def keysNodupB : List (List Char) → Bool
  | [] => true
  | k :: r => !(r.contains k) && keysNodupB r

mutual

/-- See `keysNodupB`. -/
def wfKeys : EJson → Bool
  | .null => true
  | .bool _ => true
  | .num _ => true
  | .str _ => true
  | .arr l => wfList l
  | .obj l => keysNodupB (l.map Prod.fst) && wfPairs l

/-- `wfKeys` on every element. -/
def wfList : List EJson → Bool
  | [] => true
  | j :: r => wfKeys j && wfList r

/-- `wfKeys` on every member value. -/
def wfPairs : List (List Char × EJson) → Bool
  | [] => true
  | (_, v) :: r => wfKeys v && wfPairs r

end

/-- Skip JSON whitespace. -/
def skipWs (l : List Char) : List Char := l.dropWhile isJsonWs

/-- Inverse of one-character escapes (`\uXXXX`, `\b`, `\f` unmodelled). -/
def unescChar (e : Char) : Option Char :=
  if e == dquote then some dquote
  else if e == bslash then some bslash
  else if e == '/' then some '/'
  else if e == 'n' then some nlChar
  else if e == 't' then some tabChar
  else if e == 'r' then some crChar
  else none

/-- Parse a string body after the opening quote; returns the decoded body
and the text after the closing quote. -/
def parseStr : List Char → Option (List Char × List Char)
  | [] => none
  | c :: rest =>
    if c == dquote then some ([], rest)
    else if c == bslash then
      match rest with
      | [] => none
      | e :: rest2 =>
        match unescChar e with
        | some u =>
          match parseStr rest2 with
          | some (s, r2) => some (u :: s, r2)
          | none => none
        | none => none
    else
      match parseStr rest with
      | some (s, r2) => some (c :: s, r2)
      | none => none

/-- Numeric value of a digit run (most significant first). -/
def natFromDigits (ds : List Char) : ℕ :=
  ds.foldl (fun acc c => acc * 10 + digitVal c) 0

mutual

/-- Fuelled recursive-descent JSON value parser (strict grammar: no trailing
commas, full JSON values only). -/
def parseVal : ℕ → List Char → Option (EJson × List Char)
  | 0, _ => none
  | _ + 1, [] => none
  | f + 1, c :: r =>
    if c == 'n' then
      match r with
      | 'u' :: 'l' :: 'l' :: rest => some (.null, rest)
      | _ => none
    else if c == 't' then
      match r with
      | 'r' :: 'u' :: 'e' :: rest => some (.bool true, rest)
      | _ => none
    else if c == 'f' then
      match r with
      | 'a' :: 'l' :: 's' :: 'e' :: rest => some (.bool false, rest)
      | _ => none
    else if c == dquote then
      match parseStr r with
      | some (s, rest) => some (.str s, rest)
      | none => none
    else if c == '[' then
      match parseElems f (skipWs r) with
      | some (l, rest) => some (.arr l, rest)
      | none => none
    else if c == lbrace then
      match parseMembers f (skipWs r) with
      | some (l, rest) => some (.obj l, rest)
      | none => none
    else if c == '-' then
      let ds := r.takeWhile Char.isDigit
      if ds.isEmpty then none
      else some (.num (-(natFromDigits ds : ℤ)), r.dropWhile Char.isDigit)
    else if c.isDigit then
      some (.num ((natFromDigits ((c :: r).takeWhile Char.isDigit)) : ℤ),
        (c :: r).dropWhile Char.isDigit)
    else none

/-- Array contents from the position right after `[` (whitespace already
skipped): either `]` or a first element followed by `parseRestElems`. -/
def parseElems : ℕ → List Char → Option (List EJson × List Char)
  | 0, _ => none
  | f + 1, l =>
    match l with
    | [] => none
    | c :: r =>
      if c == ']' then some ([], r)
      else
        match parseVal f (c :: r) with
        | some (v, rest) =>
          match parseRestElems f (skipWs rest) with
          | some (vs, rest2) => some (v :: vs, rest2)
          | none => none
        | none => none

/-- After one array element: `]` ends, `,` demands another element. -/
def parseRestElems : ℕ → List Char → Option (List EJson × List Char)
  | 0, _ => none
  | f + 1, l =>
    match l with
    | [] => none
    | c :: r =>
      if c == ']' then some ([], r)
      else if c == ',' then
        match parseVal f (skipWs r) with
        | some (v, rest) =>
          match parseRestElems f (skipWs rest) with
          | some (vs, rest2) => some (v :: vs, rest2)
          | none => none
        | none => none
      else none

/-- One `"key": value` member. -/
def parsePair : ℕ → List Char → Option ((List Char × EJson) × List Char)
  | 0, _ => none
  | f + 1, l =>
    match l with
    | c :: r =>
      if c == dquote then
        match parseStr r with
        | some (k, rest) =>
          match skipWs rest with
          | [] => none
          | c2 :: r2 =>
            if c2 == ':' then
              match parseVal f (skipWs r2) with
              | some (v, rest2) => some ((k, v), rest2)
              | none => none
            else none
        | none => none
      else none
    | [] => none

/-- Object contents from right after `{` (whitespace skipped). -/
def parseMembers : ℕ → List Char → Option (List (List Char × EJson) × List Char)
  | 0, _ => none
  | f + 1, l =>
    match l with
    | c :: r =>
      if c == rbrace then some ([], r)
      else
        match parsePair f (c :: r) with
        | some (kv, rest) =>
          match parseRestMembers f (skipWs rest) with
          | some (kvs, rest2) => some (kv :: kvs, rest2)
          | none => none
        | none => none
    | [] => none

/-- After one member: `}` ends, `,` demands another member. -/
def parseRestMembers : ℕ → List Char → Option (List (List Char × EJson) × List Char)
  | 0, _ => none
  | f + 1, l =>
    match l with
    | c :: r =>
      if c == rbrace then some ([], r)
      else if c == ',' then
        match parsePair f (skipWs r) with
        | some (kv, rest) =>
          match parseRestMembers f (skipWs rest) with
          | some (kvs, rest2) => some (kv :: kvs, rest2)
          | none => none
        | none => none
      else none
    | [] => none

end

/-- `json.loads`: parse one value with surrounding whitespace, rejecting
leftover input.  The fuel `2 * length + 4` dominates the recursion depth
(every second fuel decrement consumes at least one character). -/
def loadsL (l : List Char) : Option EJson :=
  match parseVal (2 * l.length + 4) (skipWs l) with
  | some (v, rest) => if (skipWs rest).isEmpty then some v else none
  | none => none

/-- Python `str.strip()`. -/
def pyStrip (l : List Char) : List Char :=
  ((l.dropWhile isPyWs).reverse.dropWhile isPyWs).reverse

/-- Three backticks at the head. -/
def tripleAt : List Char → Bool
  | a :: b :: c :: _ => a == btick && b == btick && c == btick
  | _ => false

/-- The regex lookahead `\s*` + three backticks (what must follow the closing
brace of a fenced group). -/
def fenceFollow (l : List Char) : Bool := tripleAt (l.dropWhile isPyWs)

/-- Lazy group body `[\s\S]*?\}` with lookahead `\s*` + backticks: stop at
the first `}` whose suffix satisfies `fenceFollow`; any other character
(including a `}` without the lookahead) is absorbed into the group. -/
def grabGroup : List Char → Option (List Char)
  | [] => none
  | c :: rest =>
    if c == rbrace && fenceFollow rest then some [c]
    else
      match grabGroup rest with
      | some g => some (c :: g)
      | none => none

/-- The lookahead `\s*</json>`. -/
def tagFollow (l : List Char) : Bool :=
  ExtractE.startsWithCh (l.dropWhile isPyWs) ['<', '/', 'j', 's', 'o', 'n', '>']

/-- Lazy group body for the `<json>` pattern. -/
def grabGroupTag : List Char → Option (List Char)
  | [] => none
  | c :: rest =>
    if c == rbrace && tagFollow rest then some [c]
    else
      match grabGroupTag rest with
      | some g => some (c :: g)
      | none => none

/-- Match attempt of `` ```json\s*(\{[\s\S]*?\})\s*``` `` anchored at the
head of `l`; returns the group on success. -/
def matchFenceJsonAt (l : List Char) : Option (List Char) :=
  if ExtractE.startsWithCh l [btick, btick, btick, 'j', 's', 'o', 'n'] then
    match (l.drop 7).dropWhile isPyWs with
    | c :: r2 =>
      if c == lbrace then
        match grabGroup r2 with
        | some g => some (lbrace :: g)
        | none => none
      else none
    | [] => none
  else none

/-- Match attempt of `` ```\s*(\{[\s\S]*?\})\s*``` `` anchored at the head. -/
def matchFenceAt (l : List Char) : Option (List Char) :=
  if ExtractE.startsWithCh l [btick, btick, btick] then
    match (l.drop 3).dropWhile isPyWs with
    | c :: r2 =>
      if c == lbrace then
        match grabGroup r2 with
        | some g => some (lbrace :: g)
        | none => none
      else none
    | [] => none
  else none

/-- Match attempt of `<json>\s*(\{[\s\S]*?\})\s*</json>` anchored at the
head. -/
def matchTagAt (l : List Char) : Option (List Char) :=
  if ExtractE.startsWithCh l ['<', 'j', 's', 'o', 'n', '>'] then
    match (l.drop 6).dropWhile isPyWs with
    | c :: r2 =>
      if c == lbrace then
        match grabGroupTag r2 with
        | some g => some (lbrace :: g)
        | none => none
      else none
    | [] => none
  else none

/-- `re.search`: try the anchored match at every position, leftmost first. -/
def searchBy (matchAt : List Char → Option (List Char)) : List Char → Option (List Char)
  | [] => matchAt []
  | c :: r =>
    match matchAt (c :: r) with
    | some g => some g
    | none => searchBy matchAt r

/-- The greedy regex `\{[\s\S]*\}` (`_JSON_BLOCK_RE.search`): from the first
`{` of the text to the last `}` after it. -/
def stageBraceBlock (l : List Char) : Option (List Char) :=
  let aft := l.dropWhile (fun c => !(c == lbrace))
  match aft with
  | [] => none
  | _ :: _ =>
    let tr := aft.reverse.dropWhile (fun c => !(c == rbrace))
    match tr with
    | [] => none
    | _ :: _ => some tr.reverse

/-- The last-resort slice `text[text.find('{') : text.rfind('}') + 1]` —
the same first-`{`-to-last-`}` span, recomputed by the source via
`find`/`rfind`. -/
def stageFirstLast (l : List Char) : Option (List Char) :=
  let aft := l.dropWhile (fun c => !(c == lbrace))
  match aft with
  | [] => none
  | _ :: _ =>
    let tr := aft.reverse.dropWhile (fun c => !(c == rbrace))
    match tr with
    | [] => none
    | _ :: _ => some tr.reverse

/-- `_extract_json` of `judge.py`: the five-stage cascade.  A stage whose
regex matched but whose group fails `json.loads` falls through to the *next*
stage, exactly as the source's `continue` does. -/
def extractJsonL (text : List Char) : Option EJson :=
  if text.isEmpty then none
  else
    let t := pyStrip text
    match loadsL t with
    | some j => some j
    | none =>
      match (searchBy matchFenceJsonAt t).bind loadsL with
      | some j => some j
      | none =>
        match (searchBy matchFenceAt t).bind loadsL with
        | some j => some j
        | none =>
          match (searchBy matchTagAt t).bind loadsL with
          | some j => some j
          | none =>
            match (stageBraceBlock t).bind loadsL with
            | some j => some j
            | none =>
              match (stageFirstLast t).bind loadsL with
              | some j => some j
              | none => none

/-- A provider answer wrapped in a fenced ```` ```json ```` code block. -/
def wrapFence (d : List Char) : List Char :=
  [btick, btick, btick, 'j', 's', 'o', 'n', nlChar] ++ d ++ [nlChar, btick, btick, btick]

end JsonE

namespace JudgeE

/-- The `HandoffEvaluation` dataclass of `judge.py` (distinct from the
pydantic schema of the same name). -/
structure HandoffEvaluation where
  fidelity : ℚ
  drift : ℚ
  completeness : ℚ
  consistency : ℚ
  preserved_facts : List String
  lost_facts : List String
  added_facts : List String
  reasoning : String
  quality_grade : String
  recommendations : List String

/-- `_calculate_overall_score` of `judge.py`: the fixed weighted sum. -/
def overallScore (e : HandoffEvaluation) : ℚ :=
  e.fidelity * (35 / 100) + (1 - e.drift) * (25 / 100)
    + e.completeness * (25 / 100) + e.consistency * (15 / 100)

/-- `_calculate_grade` of `judge.py`: fixed thresholds. -/
def calculateGrade (overall : ℚ) : String :=
  if overall ≥ 90 / 100 then "A"
  else if overall ≥ 80 / 100 then "B"
  else if overall ≥ 70 / 100 then "C"
  else if overall ≥ 60 / 100 then "D"
  else "F"

/-- `HandoffEvaluation.to_dict` output of `judge.py`. -/
structure JudgeDict where
  fidelity : ℚ
  drift : ℚ
  completeness : ℚ
  consistency : ℚ
  preserved : List String
  lost : List String
  added : List String
  reasoning : String
  grade : String
  recommendations : List String
  overall_score : ℚ

/-- `to_dict` of `judge.py`. -/
def toDict (e : HandoffEvaluation) : JudgeDict :=
  { fidelity := e.fidelity, drift := e.drift, completeness := e.completeness,
    consistency := e.consistency, preserved := e.preserved_facts, lost := e.lost_facts,
    added := e.added_facts, reasoning := e.reasoning, grade := e.quality_grade,
    recommendations := e.recommendations, overall_score := overallScore e }

/-- The fields `_normalize_evaluation` reads from the parsed dict.  A field
is `none` when it is missing or when the source-side coercion
(`float(value)` / `isinstance(value, list)`) fails.  (Numeric strings that
Python `float` would accept are not modelled; they only change which value
is clamped, which no claim depends on.) -/
structure JudgeData where
  fidelity : Option ℚ
  drift : Option ℚ
  completeness : Option ℚ
  consistency : Option ℚ
  preserved : Option (List String)
  lost : Option (List String)
  added : Option (List String)
  recommendations : Option (List String)
  reasoning : Option String

/-- Clamp into `[0, 1]`. -/
def clamp01 (q : ℚ) : ℚ := max 0 (min 1 q)

/-- `validate_score` of `_normalize_evaluation`: clamp a parsed value,
default on a missing/unparseable one. -/
def validateScore (v : Option ℚ) (dflt : ℚ) : ℚ :=
  match v with
  | some q => clamp01 q
  | none => dflt

/-- `validate_list` of `_normalize_evaluation`: cap list length, truncate
each element to 300 characters, empty on a missing/non-list value. -/
def validateList (v : Option (List String)) (maxItems : ℕ) : List String :=
  match v with
  | some l => (l.take maxItems).map (fun s => s.take 300)
  | none => []

/-- `_normalize_evaluation` of `judge.py`.  `validate_score` traps every
conversion error, so the normaliser is total; the grade is set from the
overall score of the otherwise-complete record. -/
def normalizeEvaluation (data : JudgeData) : HandoffEvaluation :=
  let base : HandoffEvaluation :=
    { fidelity := validateScore data.fidelity (1 / 2),
      drift := validateScore data.drift (1 / 2),
      completeness := validateScore data.completeness (1 / 2),
      consistency := validateScore data.consistency (8 / 10),
      preserved_facts := validateList data.preserved 15,
      lost_facts := validateList data.lost 10,
      added_facts := validateList data.added 10,
      reasoning := (data.reasoning.getD "No detailed reasoning provided.").take 1000,
      quality_grade := "",
      recommendations := validateList data.recommendations 5 }
  { base with quality_grade := calculateGrade (overallScore base) }

/-- Python `float(value)` on a JSON value (`True`/`False` coerce to 1/0;
numeric strings unmodelled, see `JudgeData`). -/
def pyFloat : JsonE.EJson → Option ℚ
  | .num n => some (n : ℚ)
  | .bool b => some (if b then 1 else 0)
  | _ => none

/-- Python `str(x)` on a JSON value: the content for strings, the dumped
text otherwise (an adequate stand-in, no claim inspects it). -/
def strOfEJson (j : JsonE.EJson) : String :=
  match j with
  | .str s => String.mk s
  | j => String.mk (JsonE.dumpsV j)

/-- `dict.get` on the parsed members (a later duplicate key wins, as in a
Python dict built by `json.loads`). -/
def getField (kvs : List (List Char × JsonE.EJson)) (k : String) : Option JsonE.EJson :=
  List.lookup k.data kvs.reverse

/-- The member list of the parsed dict, read into the fields
`_normalize_evaluation` uses. -/
def toJudgeData (kvs : List (List Char × JsonE.EJson)) : JudgeData :=
  let listField := fun (k : String) =>
    (getField kvs k).bind (fun j =>
      match j with
      | .arr l => some (l.map strOfEJson)
      | _ => none)
  { fidelity := (getField kvs "fidelity").bind pyFloat,
    drift := (getField kvs "drift").bind pyFloat,
    completeness := (getField kvs "completeness").bind pyFloat,
    consistency := (getField kvs "consistency").bind pyFloat,
    preserved := listField "preserved",
    lost := listField "lost",
    added := listField "added",
    recommendations := listField "recommendations",
    reasoning := (getField kvs "reasoning").map strOfEJson }

/-- `_create_fallback_evaluation` of `judge.py`: the heuristic evaluation
used when no JSON dict could be extracted.  (The source interpolates the two
ratios into the reasoning text with `%.2f` formatting; the formatted text is
irrelevant to every claim and is modelled by its constant prefix.) -/
def fallbackEvaluation (context_sent context_received : String) : JudgeDict :=
  let sentLen := context_sent.length
  let recvLen := context_received.length
  let lengthQuot : ℚ := min ((recvLen : ℚ) / max (sentLen : ℚ) 1) 1
  let sentWords := dedupF (ServiceE.pySplit context_sent.toLower)
  let recvWords := dedupF (ServiceE.pySplit context_received.toLower)
  let overlap := (sentWords.filter (fun w => recvWords.contains w)).length
  let uni := (dedupF (sentWords ++ recvWords)).length
  let keywordOverlap : ℚ := (overlap : ℚ) / max (uni : ℚ) 1
  let fidelity := (lengthQuot + keywordOverlap) / 2
  let drift := 1 - keywordOverlap
  let completeness := lengthQuot
  let consistency : ℚ := 7 / 10
  toDict
    { fidelity := fidelity, drift := drift, completeness := completeness,
      consistency := consistency,
      preserved_facts := ["[Heuristic evaluation - detailed analysis unavailable]"],
      lost_facts := [], added_facts := [],
      reasoning := "Fallback heuristic evaluation due to LLM parsing failure.",
      quality_grade := calculateGrade ((fidelity + (1 - drift) + completeness) / 3),
      recommendations := ["Re-run evaluation with proper LLM response",
        "Check context format compatibility"] }

/-- The observable behaviours of the provider call `judge.judge_text`. -/
inductive ProviderOutcome where
  | raisesProviderError
  | raisesOther
  | retNone
  | retText (s : String)

/-- `judge_handoff_via_fireworks` of `judge.py` as a function of the
provider configuration and the provider-call outcome: `None` when the
provider is unconfigured, raised, or returned no/empty text; the heuristic
fallback when the returned text yields no JSON dict; the normalised
`to_dict` otherwise.  (The source's `try` around `_normalize_evaluation`
cannot fire — see `normalizeEvaluation` — so that `except`-path fallback is
dead code.) -/
def judge_handoff_via_fireworks (configured : Bool) (outcome : ProviderOutcome)
    (context_sent context_received : String) : Option JudgeDict :=
  if !configured then none
  else
    match outcome with
    | .raisesProviderError => none
    | .raisesOther => none
    | .retNone => none
    | .retText out =>
      if out == "" then none
      else
        match JsonE.extractJsonL out.data with
        | some (.obj kvs) => some (toDict (normalizeEvaluation (toJudgeData kvs)))
        | _ => some (fallbackEvaluation context_sent context_received)

end JudgeE

namespace FwE

/-- What one `urllib.request.urlopen` call can do. -/
inductive HttpOutcome where
  | success (body : String)
  | httpError (code : ℕ)
  | urlError
  | otherError

/-- The errors `FireworksJudge._post` can raise. -/
inductive FwError where
  | noApiKey
  | httpErr (code : ℕ)
  | urlErr
  | otherErr
  | maxRetriesExceeded
deriving DecidableEq

/-- Observable trace of one `_post` call: its result, the backoff sleeps
performed (in seconds, in order), and the number of HTTP requests issued. -/
structure PostTrace where
  result : Except FwError String
  sleeps : List ℕ
  requests : ℕ

/-- The `for attempt in range(max_retries)` loop of `_post`
(fireworks.py:54-91), driven by an oracle giving the outcome of each
attempt.  `remaining + 1` is the number of loop iterations left, so the
source's retry guard `attempt < max_retries - 1` is `remaining ≠ 0`; the
backoff wait is `2 ** attempt`; a non-403 `HTTPError` raises immediately,
a `URLError` retries under the same guard, and any other exception is
re-raised at once. -/
def postLoop (oracle : ℕ → HttpOutcome) : ℕ → ℕ → PostTrace
  | _, 0 => { result := .error .maxRetriesExceeded, sleeps := [], requests := 0 }
  | attempt, remaining + 1 =>
    match oracle attempt with
    | .success body => { result := .ok body, sleeps := [], requests := 1 }
    | .httpError code =>
      if code == 403 && remaining != 0 then
        let t := postLoop oracle (attempt + 1) remaining
        { result := t.result, sleeps := 2 ^ attempt :: t.sleeps, requests := t.requests + 1 }
      else { result := .error (.httpErr code), sleeps := [], requests := 1 }
    | .urlError =>
      if remaining != 0 then
        let t := postLoop oracle (attempt + 1) remaining
        { result := t.result, sleeps := 2 ^ attempt :: t.sleeps, requests := t.requests + 1 }
      else { result := .error .urlErr, sleeps := [], requests := 1 }
    | .otherError => { result := .error .otherErr, sleeps := [], requests := 1 }

/-- `FireworksJudge._post` with `max_retries = 3`: an unconfigured provider
raises before any request is issued. -/
def fireworksPost (configured : Bool) (oracle : ℕ → HttpOutcome) : PostTrace :=
  if configured then postLoop oracle 0 3
  else { result := .error .noApiKey, sleeps := [], requests := 0 }

/-- Outcomes after which `_post` retries (under the attempt guard): an HTTP
403 or a `URLError`. -/
def retriable : HttpOutcome → Bool
  | .httpError code => code == 403
  | .urlError => true
  | _ => false

/-- The result of an attempt on which `_post` does not (or can no longer)
retry. -/
def lastResult : HttpOutcome → Except FwError String
  | .success body => .ok body
  | .httpError code => .error (.httpErr code)
  | .urlError => .error .urlErr
  | .otherError => .error .otherErr

end FwE

namespace JsonE

/-- `dumpsElems (x :: r) = dumpsV x ++ sepDumpElems r`: the separator-led
tail of an array dump. -/
def sepDumpElems : List EJson → List Char
  | [] => []
  | x :: r => ',' :: ' ' :: (dumpsV x ++ sepDumpElems r)

/-- One dumped object member `"key": value`. -/
def dumpPair (kv : List Char × EJson) : List Char :=
  dquote :: (escapeStr kv.1 ++ dquote :: ':' :: ' ' :: dumpsV kv.2)

/-- `dumpsMembers (p :: r) = dumpPair p ++ sepDumpMembers r`. -/
def sepDumpMembers : List (List Char × EJson) → List Char
  | [] => []
  | p :: r => ',' :: ' ' :: (dumpPair p ++ sepDumpMembers r)

/-- Whether three consecutive backticks occur anywhere in the text. -/
def hasTriple : List Char → Bool
  | a :: b :: c :: r => (a == btick && b == btick && c == btick) || hasTriple (b :: c :: r)
  | _ => false

mutual

/-- Fuel lower bound sufficient for `parseVal` on a dumped value. -/
def sizeW : EJson → ℕ
  | .null => 1
  | .bool _ => 1
  | .num _ => 1
  | .str _ => 1
  | .arr l => 1 + sizeL l
  | .obj l => 1 + sizeP l

/-- Fuel lower bound for `parseElems`/`parseRestElems` on dumped elements. -/
def sizeL : List EJson → ℕ
  | [] => 1
  | j :: r => 1 + sizeW j + sizeL r

/-- Fuel lower bound for `parseMembers`/`parseRestMembers` on dumped
members. -/
def sizeP : List (List Char × EJson) → ℕ
  | [] => 1
  | (_, v) :: r => 2 + sizeW v + sizeP r

end

/-- The string body `} ``` {} ``` ` of the counterexample object. -/
def sCE : List Char :=
  [rbrace, ' ', btick, btick, btick, ' ', lbrace, rbrace, ' ', btick, btick, btick]

/-- The counterexample object `{"a": "} ``` {} ```"}`: its serialization
contains a fenced-brace pattern inside a string literal. -/
def jCE : EJson := .obj [(['a'], .str sCE)]

end JsonE

namespace AggE

/-- A handoff evaluation with the given fidelity and drift and neutral
remaining fields (used to instantiate the rollup examples). -/
noncomputable def exHandoff (f d : ℝ) : SchemaE.HandoffEvaluation :=
  { handoff_id := "h", agent_from := "a", agent_to := "b", context_sent := "s",
    context_received := "r",
    eval_scores := { fidelity := f, drift := d, compression := 0,
                     temporal_coherence := none, response_utility := none },
    vectors := none, key_info_preserved := [], metadata := [], timestamp := () }

/-- Handoff with fidelity 0.9, drift 0.1. -/
noncomputable def hA : SchemaE.HandoffEvaluation := exHandoff (9 / 10) (1 / 10)

/-- Handoff with fidelity 0.8, drift 0.2. -/
noncomputable def hB : SchemaE.HandoffEvaluation := exHandoff (8 / 10) (2 / 10)

/-- Handoff with fidelity 0.7, drift 0.3. -/
noncomputable def hC : SchemaE.HandoffEvaluation := exHandoff (7 / 10) (3 / 10)

end AggE

/-!
## Theorems

Helper lemmas first, then one theorem (plus counterexample/witness where
required) per claim.
-/

/-- `Except` bind on a success reduces. -/
theorem except_bind_ok {ε α β : Type} (a : α) (f : α → Except ε β) :
    (Except.ok a >>= f : Except ε β) = f a := rfl

/-- C8: for nonnegative token counts `compute_compression_efficiency b a` is
exactly `max 0 ((b - a) / max b 1)`; it is exactly 0 whenever `a > b`; it
raises a domain error when either count is negative; and
`compute_compression_efficiency 100 60 = 0.4`,
`compute_compression_efficiency 100 120 = 0`. -/
theorem compression_efficiency_spec :
    (∀ b a : ℤ, 0 ≤ b → 0 ≤ a →
      MetricsE.compute_compression_efficiency b a
        = .ok (max 0 (((b : ℚ) - (a : ℚ)) / max (b : ℚ) 1))) ∧
    (∀ b a : ℤ, 0 ≤ b → b < a → MetricsE.compute_compression_efficiency b a = .ok 0) ∧
    (∀ b a : ℤ, b < 0 ∨ a < 0 →
      ∃ msg, MetricsE.compute_compression_efficiency b a = .error msg) ∧
    MetricsE.compute_compression_efficiency 100 60 = .ok (2 / 5) ∧
    MetricsE.compute_compression_efficiency 100 120 = .ok 0 := by
  refine ⟨?_, ?_, ?_, by with_unfolding_all rfl, by with_unfolding_all rfl⟩
  · intro b a hb ha
    unfold MetricsE.compute_compression_efficiency MetricsE.safeRatio
    rw [if_neg (by omega : ¬(b < 0 ∨ a < 0))]
    by_cases hab : a > b
    · rw [if_pos hab]
      have hden : (0 : ℚ) < max (b : ℚ) 1 := lt_max_of_lt_right one_pos
      have hnum : ((b : ℚ) - (a : ℚ)) ≤ 0 := by
        have : (b : ℚ) ≤ (a : ℚ) := by exact_mod_cast hab.le
        linarith
      have hq : ((b : ℚ) - (a : ℚ)) / max (b : ℚ) 1 ≤ 0 :=
        div_nonpos_iff.mpr (Or.inr ⟨hnum, hden.le⟩)
      rw [max_eq_left hq]
    · rw [if_neg hab]
      have h1 : ¬(|max (b : ℚ) 1| < 1 / 10 ^ 12) := by
        rw [abs_of_pos (lt_max_of_lt_right one_pos)]
        have h2 : (1 : ℚ) ≤ max (b : ℚ) 1 := le_max_right _ _
        intro hcon
        have : (1 / 10 ^ 12 : ℚ) ≤ 1 := by norm_num
        linarith
      rw [if_neg h1]
  · intro b a hb hab
    unfold MetricsE.compute_compression_efficiency
    rw [if_neg (by omega : ¬(b < 0 ∨ a < 0)), if_pos hab]
  · intro b a h
    unfold MetricsE.compute_compression_efficiency
    rw [if_pos h]
    exact ⟨_, rfl⟩

/-- Witness for C8 at `(100, 60)`. -/
theorem compression_efficiency_spec_witness :
    MetricsE.compute_compression_efficiency 100 60
      = .ok (max 0 (((100 : ℚ) - (60 : ℚ)) / max (100 : ℚ) 1)) :=
  compression_efficiency_spec.1 100 60 (by norm_num) (by norm_num)

/-- C3 (code bug): on `"Released in 2020"` vs `"Remade in 2021"` the code
returns temporal coherence `1` (maximal), not a low value: `findall` on the
grouped pattern `(19|20)\d{2}` yields only the century prefixes `"20"`,
which coincide on both sides, instead of the disjoint years 2020/2021. -/
theorem temporal_coherence_capture_group_bug :
    MetricsE.compute_temporal_coherence "Released in 2020" "Remade in 2021" = some 1 := by
  with_unfolding_all rfl

/-- Closed-form behaviour of `_post` with `max_retries = 3`: retry happens
(with waits 1s then 2s) exactly while the outcome is retriable (HTTP 403 or
a URL error) and attempts remain; the third attempt never retries. -/
theorem fireworksPost_true_eq (oracle : ℕ → FwE.HttpOutcome) :
    FwE.fireworksPost true oracle =
      if FwE.retriable (oracle 0) then
        if FwE.retriable (oracle 1) then
          { result := FwE.lastResult (oracle 2), sleeps := [1, 2], requests := 3 }
        else { result := FwE.lastResult (oracle 1), sleeps := [1], requests := 2 }
      else { result := FwE.lastResult (oracle 0), sleeps := [], requests := 1 } := by
  have e : FwE.fireworksPost true oracle = FwE.postLoop oracle 0 3 := rfl
  rw [e]
  rcases h0 : oracle 0 with b0 | c0 | _ | _
  · simp [FwE.postLoop, h0, FwE.retriable, FwE.lastResult]
  · by_cases hc0 : c0 = 403
    · subst hc0
      rcases h1 : oracle 1 with b1 | c1 | _ | _
      · simp [FwE.postLoop, h0, h1, FwE.retriable, FwE.lastResult]
      · by_cases hc1 : c1 = 403
        · subst hc1
          rcases h2 : oracle 2 with b2 | c2 | _ | _ <;>
            simp [FwE.postLoop, h0, h1, h2, FwE.retriable, FwE.lastResult]
        · simp [FwE.postLoop, h0, h1, FwE.retriable, FwE.lastResult, hc1]
      · rcases h2 : oracle 2 with b2 | c2 | _ | _ <;>
          simp [FwE.postLoop, h0, h1, h2, FwE.retriable, FwE.lastResult]
      · simp [FwE.postLoop, h0, h1, FwE.retriable, FwE.lastResult]
    · simp [FwE.postLoop, h0, FwE.retriable, FwE.lastResult, hc0]
  · rcases h1 : oracle 1 with b1 | c1 | _ | _
    · simp [FwE.postLoop, h0, h1, FwE.retriable, FwE.lastResult]
    · by_cases hc1 : c1 = 403
      · subst hc1
        rcases h2 : oracle 2 with b2 | c2 | _ | _ <;>
          simp [FwE.postLoop, h0, h1, h2, FwE.retriable, FwE.lastResult]
      · simp [FwE.postLoop, h0, h1, FwE.retriable, FwE.lastResult, hc1]
    · rcases h2 : oracle 2 with b2 | c2 | _ | _ <;>
        simp [FwE.postLoop, h0, h1, h2, FwE.retriable, FwE.lastResult]
    · simp [FwE.postLoop, h0, h1, FwE.retriable, FwE.lastResult]
  · simp [FwE.postLoop, h0, FwE.retriable, FwE.lastResult]

/-- C5 counterexample: a network (`URLError`) failure on every attempt is
*retried* with backoff waits 1s and 2s and three requests — not raised
immediately — and an always-rate-limited provider also sleeps only 1s and
2s (there is no 4s wait: with 3 attempts total only two waits can occur). -/
theorem fireworks_retry_counterexample :
    FwE.fireworksPost true (fun _ => .urlError)
      = { result := .error .urlErr, sleeps := [1, 2], requests := 3 } ∧
    FwE.fireworksPost true (fun _ => .httpError 403)
      = { result := .error (.httpErr 403), sleeps := [1, 2], requests := 3 } := by
  constructor <;> with_unfolding_all rfl

/-- C5 (amended): `_post` short-circuits with zero requests when no
credential is configured; issues at most 3 requests with backoff waits that
are a prefix of `[1s, 2s]`; raises immediately (one request, no sleep) on a
non-403 HTTP error or an unexpected exception; returns the body at once on
success; and issues at least two requests when the first attempt hits a 403
or a URL error (both are retried). -/
theorem fireworks_post_amended :
    (∀ oracle, FwE.fireworksPost false oracle
        = { result := .error .noApiKey, sleeps := [], requests := 0 }) ∧
    (∀ oracle, (FwE.fireworksPost true oracle).requests ≤ 3) ∧
    (∀ oracle, (FwE.fireworksPost true oracle).sleeps = []
        ∨ (FwE.fireworksPost true oracle).sleeps = [1]
        ∨ (FwE.fireworksPost true oracle).sleeps = [1, 2]) ∧
    (∀ oracle b, oracle 0 = .success b →
      FwE.fireworksPost true oracle = { result := .ok b, sleeps := [], requests := 1 }) ∧
    (∀ oracle c, oracle 0 = .httpError c → c ≠ 403 →
      FwE.fireworksPost true oracle
        = { result := .error (.httpErr c), sleeps := [], requests := 1 }) ∧
    (∀ oracle, oracle 0 = .otherError →
      FwE.fireworksPost true oracle
        = { result := .error .otherErr, sleeps := [], requests := 1 }) ∧
    (∀ oracle, (oracle 0 = .httpError 403 ∨ oracle 0 = .urlError) →
      2 ≤ (FwE.fireworksPost true oracle).requests) := by
  refine ⟨fun oracle => rfl, ?_, ?_, ?_, ?_, ?_, ?_⟩
  · intro oracle
    rw [fireworksPost_true_eq]
    split_ifs <;> simp
  · intro oracle
    rw [fireworksPost_true_eq]
    split_ifs <;> simp
  · intro oracle b h
    rw [fireworksPost_true_eq, h]
    simp [FwE.retriable, FwE.lastResult]
  · intro oracle c h hc
    rw [fireworksPost_true_eq, h]
    simp [FwE.retriable, FwE.lastResult, hc]
  · intro oracle h
    rw [fireworksPost_true_eq, h]
    simp [FwE.retriable, FwE.lastResult]
  · intro oracle h
    rw [fireworksPost_true_eq]
    have : FwE.retriable (oracle 0) = true := by
      rcases h with h | h <;> simp [h, FwE.retriable]
    rw [if_pos this]
    split_ifs <;> norm_num

/-- Witness for the amended C5 at an immediately-successful oracle. -/
theorem fireworks_post_amended_witness :
    FwE.fireworksPost true (fun _ => .success "body")
      = { result := .ok "body", sleeps := [], requests := 1 } :=
  fireworks_post_amended.2.2.2.1 (fun _ => .success "body") "body" rfl

/-- C6 counterexample: on `context_sent = "a b c d e"`,
`context_received = "a b c d e f"` the heuristic fallback reports grade
`"A"`, but the fixed-threshold mapping of its own `overall_score`
(`≈ 0.884`) is `"B"` — the fallback grades the unweighted mean
`(fidelity + (1 - drift) + completeness) / 3`, not the weighted overall
score. -/
theorem fallback_grade_mismatch_counterexample :
    (JudgeE.fallbackEvaluation "a b c d e" "a b c d e f").grade = "A" ∧
    JudgeE.calculateGrade
        (JudgeE.fallbackEvaluation "a b c d e" "a b c d e f").overall_score = "B" := by
  constructor <;> with_unfolding_all rfl

/-- C6 (amended): a judgment parsed from the provider (`_normalize_evaluation`)
carries the weighted overall score and the letter grade of that score; the
heuristic fallback's `overall_score` is also the weighted sum, but its grade
is the threshold mapping of the *unweighted* mean
`(fidelity + (1 - drift) + completeness) / 3`, which can differ from the
mapping of the overall score. -/
theorem judge_overall_score_and_grade :
    (∀ data : JudgeE.JudgeData,
      (JudgeE.toDict (JudgeE.normalizeEvaluation data)).grade
        = JudgeE.calculateGrade
            (JudgeE.toDict (JudgeE.normalizeEvaluation data)).overall_score) ∧
    (∀ e : JudgeE.HandoffEvaluation,
      (JudgeE.toDict e).overall_score
        = e.fidelity * (35 / 100) + (1 - e.drift) * (25 / 100)
          + e.completeness * (25 / 100) + e.consistency * (15 / 100)) ∧
    (∀ s r,
      (JudgeE.fallbackEvaluation s r).overall_score
        = (JudgeE.fallbackEvaluation s r).fidelity * (35 / 100)
          + (1 - (JudgeE.fallbackEvaluation s r).drift) * (25 / 100)
          + (JudgeE.fallbackEvaluation s r).completeness * (25 / 100)
          + (JudgeE.fallbackEvaluation s r).consistency * (15 / 100)) ∧
    (∀ s r,
      (JudgeE.fallbackEvaluation s r).grade
        = JudgeE.calculateGrade
            (((JudgeE.fallbackEvaluation s r).fidelity
              + (1 - (JudgeE.fallbackEvaluation s r).drift)
              + (JudgeE.fallbackEvaluation s r).completeness) / 3)) :=
  ⟨fun _ => rfl, fun _ => rfl, fun _ _ => rfl, fun _ _ => rfl⟩

/-- C2 counterexample: with no credential configured the judge returns
`None` — not a heuristic-fallback result object. -/
theorem judge_unconfigured_counterexample :
    JudgeE.judge_handoff_via_fireworks false (.retText "anything") "a" "b" = none := rfl

/-- C2 (amended): `judge_handoff_via_fireworks` is a total function (never
raises); it returns `None` (an absent result) when the provider is
unconfigured, when the provider call raises, and when the provider returns
no or empty text; only a *non-empty* response from which no JSON dict can be
extracted produces the heuristic fallback object — which always carries
fidelity, drift and one of the five letter grades. -/
theorem judge_absent_or_fallback :
    (∀ o s r, JudgeE.judge_handoff_via_fireworks false o s r = none) ∧
    (∀ s r, JudgeE.judge_handoff_via_fireworks true .raisesProviderError s r = none) ∧
    (∀ s r, JudgeE.judge_handoff_via_fireworks true .raisesOther s r = none) ∧
    (∀ s r, JudgeE.judge_handoff_via_fireworks true .retNone s r = none) ∧
    (∀ s r, JudgeE.judge_handoff_via_fireworks true (.retText "") s r = none) ∧
    (∀ out s r, out ≠ "" → (∀ kvs, JsonE.extractJsonL out.data ≠ some (.obj kvs)) →
      JudgeE.judge_handoff_via_fireworks true (.retText out) s r
        = some (JudgeE.fallbackEvaluation s r)) ∧
    (∀ s r, (JudgeE.fallbackEvaluation s r).grade = "A"
        ∨ (JudgeE.fallbackEvaluation s r).grade = "B"
        ∨ (JudgeE.fallbackEvaluation s r).grade = "C"
        ∨ (JudgeE.fallbackEvaluation s r).grade = "D"
        ∨ (JudgeE.fallbackEvaluation s r).grade = "F") := by
  refine ⟨fun _ _ _ => rfl, fun _ _ => rfl, fun _ _ => rfl, fun _ _ => rfl, fun _ _ => rfl,
    ?_, ?_⟩
  · intro out s r hne hnobj
    have hbeq : (out == "") = false := by
      simp only [beq_eq_false_iff_ne, ne_eq]
      exact hne
    rcases hE : JsonE.extractJsonL out.data with _ | j
    · simp [JudgeE.judge_handoff_via_fireworks, hbeq, hE]
    · rcases j with _ | b | n | s2 | l | kvs
      · simp [JudgeE.judge_handoff_via_fireworks, hbeq, hE]
      · simp [JudgeE.judge_handoff_via_fireworks, hbeq, hE]
      · simp [JudgeE.judge_handoff_via_fireworks, hbeq, hE]
      · simp [JudgeE.judge_handoff_via_fireworks, hbeq, hE]
      · simp [JudgeE.judge_handoff_via_fireworks, hbeq, hE]
      · exact absurd hE (hnobj kvs)
  · intro s r
    have h : ∀ q : ℚ, JudgeE.calculateGrade q = "A" ∨ JudgeE.calculateGrade q = "B"
        ∨ JudgeE.calculateGrade q = "C" ∨ JudgeE.calculateGrade q = "D"
        ∨ JudgeE.calculateGrade q = "F" := by
      intro q
      unfold JudgeE.calculateGrade
      split_ifs <;> simp
    have hg : (JudgeE.fallbackEvaluation s r).grade
        = JudgeE.calculateGrade (((JudgeE.fallbackEvaluation s r).fidelity
            + (1 - (JudgeE.fallbackEvaluation s r).drift)
            + (JudgeE.fallbackEvaluation s r).completeness) / 3) := rfl
    rw [hg]
    exact h _

/-- Witness for the amended C2: a non-empty response with no JSON object in
it yields exactly the heuristic fallback. -/
theorem judge_absent_or_fallback_witness :
    JudgeE.judge_handoff_via_fireworks true (.retText "not json") "a" "b"
      = some (JudgeE.fallbackEvaluation "a" "b") :=
  judge_absent_or_fallback.2.2.2.2.2.1 "not json" "a" "b" (by decide)
    (fun kvs h => by
      have he : JsonE.extractJsonL ("not json".data) = none := by with_unfolding_all rfl
      rw [he] at h
      exact Option.noConfusion h)

/-- C1 (code bug): the persisted handoff document contains no `pipeline_id`
key — `schema.HandoffEvaluation` declares no such field and pydantic's
default `extra='ignore'` drops the keyword passed by the service — so after
storing a handoff for pipeline `"p1"`, `get_handoffs_by_pipeline "p1"`
returns nothing and `finalize_pipeline "p1"` recomputes the all-zero rollup
of an empty handoff list. -/
theorem pipeline_id_never_persisted :
    ((ServiceE.evaluate_and_store_handoff (fun _ => []) [] "p1" "h1" "A" "B" "x" "x"
        none none none none none).map
      (fun r => (List.lookup "pipeline_id" (AggE.dumpHandoff r.1),
                 AggE.get_handoffs_by_pipeline r.2 "p1",
                 (ServiceE.finalize_pipeline r.2 [] "p1").1.overall_pipeline_score.avg_fidelity)))
      = .ok (none, [], 0) := by
  with_unfolding_all rfl

/-- C7 counterexample: a caller-supplied non-empty metadata map is stored
as-is — the persisted record then has neither a `tokens` entry nor a
`format` key. -/
theorem metadata_passthrough_counterexample :
    (ServiceE.evaluate_and_store_handoff (fun _ => []) [] "p1" "h1" "A" "B" "x" "y"
        none none none none (some [("foo", .mstr "bar")])).map
      (fun r => (List.lookup "tokens" r.1.metadata, List.lookup "format" r.1.metadata))
      = .ok (none, none) := by
  with_unfolding_all rfl

/-- `compute_fidelity` without vectors always succeeds. -/
theorem fidelity_none_ok (s r : String) :
    MetricsE.compute_fidelity s r none none
      = .ok (max 0 (min 1 (MetricsE.cosineOnTermFreq (MetricsE.tokenize s)
          (MetricsE.tokenize r)))) := rfl

/-- `compute_relevance_drift` without vectors always succeeds. -/
theorem drift_none_ok (s r : String) (k : ℕ) :
    ∃ v, MetricsE.compute_relevance_drift s r none none k = .ok v := by
  unfold MetricsE.compute_relevance_drift
  rw [fidelity_none_ok, except_bind_ok]
  dsimp only
  split
  · exact ⟨_, rfl⟩
  · exact ⟨_, rfl⟩

/-- `compute_compression_efficiency` succeeds on nonnegative counts. -/
theorem compression_ok_of_nonneg (b a : ℤ) (hb : 0 ≤ b) (ha : 0 ≤ a) :
    ∃ q, MetricsE.compute_compression_efficiency b a = .ok q := by
  unfold MetricsE.compute_compression_efficiency
  rw [if_neg (by omega : ¬(b < 0 ∨ a < 0))]
  split
  · exact ⟨_, rfl⟩
  · exact ⟨_, rfl⟩

/-- `evaluate_handoff` with counted tokens and no vectors always succeeds. -/
theorem evaluate_handoff_ok (s r : String) (tb ta : ℤ) (hb : 0 ≤ tb) (ha : 0 ≤ ta) :
    ∃ v, MetricsE.evaluate_handoff s r (some tb) (some ta) none none = .ok v := by
  obtain ⟨d, hd⟩ := drift_none_ok s r 10
  obtain ⟨q, hq⟩ := compression_ok_of_nonneg tb ta hb ha
  unfold MetricsE.evaluate_handoff
  rw [fidelity_none_ok, except_bind_ok, hd, except_bind_ok]
  dsimp only
  rw [hq, except_bind_ok]
  exact ⟨_, rfl⟩

/-- Shape of every `evaluate_and_store_handoff` call with derived token
counts and no vectors: it succeeds, appends exactly the returned document to
the store, and attaches `buildMetadata` as the document metadata. -/
theorem evaluate_store_shape (ke : String → List String) (store : List AggE.Document)
    (p hid af ag cs cr : String) (md : Option SchemaE.MetaMap) :
    ∃ doc, ServiceE.evaluate_and_store_handoff ke store p hid af ag cs cr
        none none none none md
        = .ok (doc, AggE.insert_handoff store doc) ∧
      doc.metadata
        = ServiceE.buildMetadata md (ServiceE.countTokens cs) (ServiceE.countTokens cr) := by
  obtain ⟨v, hv⟩ := evaluate_handoff_ok cs cr (ServiceE.countTokens cs)
    (ServiceE.countTokens cr) (Int.natCast_nonneg _) (Int.natCast_nonneg _)
  unfold ServiceE.evaluate_and_store_handoff
  dsimp only [Option.getD]
  rw [hv, except_bind_ok]
  exact ⟨_, rfl, rfl⟩

/-- C7 (amended): only when the caller supplies no metadata (or an empty
map) does the persisted record carry the default
`{"format": None, "tokens": {"before": tb, "after": ta}}` map; a non-empty
caller-supplied metadata map is persisted unchanged, without `tokens` or
`format` being added. -/
theorem metadata_contract_amended :
    (∀ ke store p hid af ag cs cr,
      ∃ doc, ServiceE.evaluate_and_store_handoff ke store p hid af ag cs cr
          none none none none none
          = .ok (doc, AggE.insert_handoff store doc) ∧
        doc.metadata = [("format", .mnone),
          ("tokens", .mtokens (ServiceE.countTokens cs) (ServiceE.countTokens cr))]) ∧
    (∀ ke store p hid af ag cs cr m, m ≠ [] →
      ∃ doc, ServiceE.evaluate_and_store_handoff ke store p hid af ag cs cr
          none none none none (some m)
          = .ok (doc, AggE.insert_handoff store doc) ∧ doc.metadata = m) := by
  constructor
  · intro ke store p hid af ag cs cr
    obtain ⟨doc, h1, h2⟩ := evaluate_store_shape ke store p hid af ag cs cr none
    exact ⟨doc, h1, by rw [h2]; rfl⟩
  · intro ke store p hid af ag cs cr m hm
    obtain ⟨doc, h1, h2⟩ := evaluate_store_shape ke store p hid af ag cs cr (some m)
    refine ⟨doc, h1, ?_⟩
    rw [h2]
    have hne : m.isEmpty = false := by
      cases m
      · exact absurd rfl hm
      · rfl
    unfold ServiceE.buildMetadata
    simp only [hne]
    rfl

/-- Witness for the amended C7: a non-empty caller map is stored as-is. -/
theorem metadata_contract_amended_witness :
    ∃ doc, ServiceE.evaluate_and_store_handoff (fun _ => []) [] "p" "h" "A" "B" "x" "y"
        none none none none (some [("k", .mstr "v")])
        = .ok (doc, AggE.insert_handoff [] doc) ∧
      doc.metadata = [("k", SchemaE.MetaVal.mstr "v")] :=
  metadata_contract_amended.2 (fun _ => []) [] "p" "h" "A" "B" "x" "y"
    [("k", .mstr "v")] (by simp)

/-- Rounding a real strictly within one half of the integer `k` gives `k`. -/
theorem roundHE_eq (k : ℤ) (y : ℝ) (h1 : (k : ℝ) - 1 / 2 < y) (h2 : y < (k : ℝ) + 1 / 2) :
    AggE.roundHalfEven y = k := by
  unfold AggE.roundHalfEven
  by_cases hk : (k : ℝ) ≤ y
  · have hfl : ⌊y⌋ = k := by
      rw [Int.floor_eq_iff]
      exact ⟨hk, by linarith⟩
    rw [hfl]
    rw [if_pos (by linarith)]
  · push_neg at hk
    have hfl : ⌊y⌋ = k - 1 := by
      rw [Int.floor_eq_iff]
      constructor
      · push_cast
        linarith
      · push_cast
        linarith
    rw [hfl]
    rw [if_neg (by push_cast; linarith), if_pos (by push_cast; linarith)]
    omega

/-- `round(x, 4)` of a real strictly within half a unit of `k / 10⁴`. -/
theorem pyRound4_eq (k : ℤ) (x : ℝ) (h1 : (k : ℝ) - 1 / 2 < x * 10000)
    (h2 : x * 10000 < (k : ℝ) + 1 / 2) : AggE.pyRound4 x = (k : ℝ) / 10000 := by
  unfold AggE.pyRound4
  rw [roundHE_eq k _ h1 h2]

/-- C10: for every non-empty handoff list the rollup's four fields are the
4-decimal roundings of the three arithmetic means and of the geometric mean
of the `1e-6`-floored fidelities — not the exact means. -/
theorem rollup_rounds_each_field (hs : List SchemaE.HandoffEvaluation) (h : hs ≠ []) :
    AggE.compute_pipeline_rollup hs =
      { avg_fidelity := AggE.pyRound4 (AggE.avgFidelity hs),
        avg_drift := AggE.pyRound4 (AggE.avgDrift hs),
        total_compression := AggE.pyRound4 (AggE.avgCompression hs),
        end_to_end_fidelity := AggE.pyRound4 (AggE.geoFidelity hs) } := by
  have hne : hs.isEmpty = false := by
    cases hs
    · exact absurd rfl h
    · rfl
  unfold AggE.compute_pipeline_rollup AggE.avgFidelity AggE.avgDrift AggE.avgCompression
    AggE.geoFidelity
  simp only [hne, Bool.false_eq_true, if_false, List.map_map, List.length_map]
  rfl

/-- Witness for C10 at the three-handoff example. -/
theorem rollup_rounds_each_field_witness :
    AggE.compute_pipeline_rollup [AggE.hA, AggE.hB, AggE.hC] =
      { avg_fidelity := AggE.pyRound4 (AggE.avgFidelity [AggE.hA, AggE.hB, AggE.hC]),
        avg_drift := AggE.pyRound4 (AggE.avgDrift [AggE.hA, AggE.hB, AggE.hC]),
        total_compression := AggE.pyRound4 (AggE.avgCompression [AggE.hA, AggE.hB, AggE.hC]),
        end_to_end_fidelity := AggE.pyRound4 (AggE.geoFidelity [AggE.hA, AggE.hB, AggE.hC]) } :=
  rollup_rounds_each_field [AggE.hA, AggE.hB, AggE.hC] (by simp)

/-- The cube of the real cube root of `0.504`. -/
theorem cube_root_cubed : (((504 : ℝ) / 1000) ^ ((1 : ℝ) / 3)) ^ (3 : ℕ) = 504 / 1000 := by
  rw [← Real.rpow_natCast (((504 : ℝ) / 1000) ^ ((1 : ℝ) / 3)) 3,
    ← Real.rpow_mul (by norm_num : (0 : ℝ) ≤ 504 / 1000)]
  norm_num

/-- Rational bounds on the cube root of `0.504` (`≈ 0.795811`). -/
theorem cube_root_bounds :
    (79575 / 100000 : ℝ) < ((504 : ℝ) / 1000) ^ ((1 : ℝ) / 3) ∧
    ((504 : ℝ) / 1000) ^ ((1 : ℝ) / 3) < (79585 / 100000 : ℝ) := by
  have hx0 : (0 : ℝ) ≤ ((504 : ℝ) / 1000) ^ ((1 : ℝ) / 3) :=
    Real.rpow_nonneg (by norm_num) _
  constructor
  · by_contra h
    push_neg at h
    have h3 : (((504 : ℝ) / 1000) ^ ((1 : ℝ) / 3)) ^ (3 : ℕ) ≤ (79575 / 100000 : ℝ) ^ (3 : ℕ) :=
      pow_le_pow_left₀ hx0 h 3
    rw [cube_root_cubed] at h3
    norm_num at h3
  · by_contra h
    push_neg at h
    have h3 : (79585 / 100000 : ℝ) ^ (3 : ℕ) ≤ (((504 : ℝ) / 1000) ^ ((1 : ℝ) / 3)) ^ (3 : ℕ) :=
      pow_le_pow_left₀ (by norm_num) h 3
    rw [cube_root_cubed] at h3
    norm_num at h3

/-- The end-to-end field of the three-handoff rollup, before rounding. -/
theorem rollup_hABC_e2e :
    (AggE.compute_pipeline_rollup [AggE.hA, AggE.hB, AggE.hC]).end_to_end_fidelity
      = AggE.pyRound4 (((504 : ℝ) / 1000) ^ ((1 : ℝ) / 3)) := by
  have h0 : (AggE.compute_pipeline_rollup [AggE.hA, AggE.hB, AggE.hC]).end_to_end_fidelity
      = AggE.pyRound4 (AggE.geometricMean
          [max (9 / 10) (1 / 10 ^ 6), max (8 / 10) (1 / 10 ^ 6), max (7 / 10) (1 / 10 ^ 6)]) :=
    rfl
  rw [h0]
  have h9 : max (9 / 10 : ℝ) (1 / 10 ^ 6) = 9 / 10 := max_eq_left (by norm_num)
  have h8 : max (8 / 10 : ℝ) (1 / 10 ^ 6) = 8 / 10 := max_eq_left (by norm_num)
  have h7 : max (7 / 10 : ℝ) (1 / 10 ^ 6) = 7 / 10 := max_eq_left (by norm_num)
  rw [h9, h8, h7]
  unfold AggE.geometricMean
  norm_num

/-- The rounded value of the three-handoff end-to-end fidelity. -/
theorem rollup_hABC_e2e_val :
    (AggE.compute_pipeline_rollup [AggE.hA, AggE.hB, AggE.hC]).end_to_end_fidelity
      = 7958 / 10000 := by
  rw [rollup_hABC_e2e]
  have hb := cube_root_bounds
  have := pyRound4_eq 7958 (((504 : ℝ) / 1000) ^ ((1 : ℝ) / 3))
    (by push_cast; nlinarith [hb.1]) (by push_cast; nlinarith [hb.2])
  rw [this]
  norm_num

/-- C4 counterexample: for handoffs of fidelity `[0.9, 0.8, 0.7]` the
returned `end_to_end_fidelity` is exactly `0.7958` — the 4-decimal rounding
of `(0.9·0.8·0.7)^(1/3) ≈ 0.79581` — and is *not* equal to the exact
geometric mean `(0.9·0.8·0.7)^(1/3)` (and in particular not `≈ 0.7937`,
which is the cube root of 0.500, not of 0.504). -/
theorem rollup_geometric_mean_counterexample :
    (AggE.compute_pipeline_rollup [AggE.hA, AggE.hB, AggE.hC]).end_to_end_fidelity
        = 7958 / 10000 ∧
    (AggE.compute_pipeline_rollup [AggE.hA, AggE.hB, AggE.hC]).end_to_end_fidelity
        ≠ (((9 : ℝ) / 10) * (8 / 10) * (7 / 10)) ^ ((1 : ℝ) / 3) := by
  refine ⟨rollup_hABC_e2e_val, ?_⟩
  rw [rollup_hABC_e2e_val]
  intro hcon
  have hbase : (((9 : ℝ) / 10) * (8 / 10) * (7 / 10)) = 504 / 1000 := by norm_num
  rw [hbase] at hcon
  have h3 := cube_root_cubed
  rw [← hcon] at h3
  norm_num at h3

/-- C4 (amended): the rollup returns the *4-decimal-rounded* means: the
empty list yields the all-zero score; a single handoff of fidelity 0.9
yields `end_to_end_fidelity = 0.9` exactly (rounding fixes it); the
`[0.9, 0.8, 0.7]` example yields `avg_fidelity = 0.8`, `avg_drift = 0.2`
and `end_to_end_fidelity = 0.7958` (the rounded cube root of 0.504). -/
theorem rollup_examples_amended :
    AggE.compute_pipeline_rollup []
      = { avg_fidelity := 0, avg_drift := 0, total_compression := 0,
          end_to_end_fidelity := 0 } ∧
    (∀ h : SchemaE.HandoffEvaluation, h.eval_scores.fidelity = 9 / 10 →
      (AggE.compute_pipeline_rollup [h]).end_to_end_fidelity = 9 / 10) ∧
    (AggE.compute_pipeline_rollup [AggE.hA, AggE.hB, AggE.hC]).avg_fidelity = 8 / 10 ∧
    (AggE.compute_pipeline_rollup [AggE.hA, AggE.hB, AggE.hC]).avg_drift = 2 / 10 ∧
    (AggE.compute_pipeline_rollup [AggE.hA, AggE.hB, AggE.hC]).end_to_end_fidelity
      = 7958 / 10000 := by
  refine ⟨rfl, ?_, ?_, ?_, rollup_hABC_e2e_val⟩
  · intro h hf
    have h0 : (AggE.compute_pipeline_rollup [h]).end_to_end_fidelity
        = AggE.pyRound4 (AggE.geometricMean [max h.eval_scores.fidelity (1 / 10 ^ 6)]) := rfl
    rw [h0, hf, max_eq_left (by norm_num : (1 / 10 ^ 6 : ℝ) ≤ 9 / 10)]
    unfold AggE.geometricMean
    norm_num
    have := pyRound4_eq 9000 ((9 : ℝ) / 10) (by push_cast; norm_num) (by push_cast; norm_num)
    rw [this]
    norm_num
  · have h0 : (AggE.compute_pipeline_rollup [AggE.hA, AggE.hB, AggE.hC]).avg_fidelity
        = AggE.pyRound4 ((9 / 10 + (8 / 10 + (7 / 10 + 0))) / ((3 : ℕ) : ℝ)) := rfl
    rw [h0]
    have := pyRound4_eq 8000 ((9 / 10 + (8 / 10 + (7 / 10 + 0))) / ((3 : ℕ) : ℝ))
      (by push_cast; norm_num) (by push_cast; norm_num)
    rw [this]
    norm_num
  · have h0 : (AggE.compute_pipeline_rollup [AggE.hA, AggE.hB, AggE.hC]).avg_drift
        = AggE.pyRound4 ((1 / 10 + (2 / 10 + (3 / 10 + 0))) / ((3 : ℕ) : ℝ)) := rfl
    rw [h0]
    have := pyRound4_eq 2000 ((1 / 10 + (2 / 10 + (3 / 10 + 0))) / ((3 : ℕ) : ℝ))
      (by push_cast; norm_num) (by push_cast; norm_num)
    rw [this]
    norm_num

/-- Witness for the amended C4 at the single-0.9-fidelity handoff. -/
theorem rollup_examples_amended_witness :
    (AggE.compute_pipeline_rollup [AggE.hA]).end_to_end_fidelity = 9 / 10 :=
  rollup_examples_amended.2.1 AggE.hA rfl

/-- C9 counterexample: for the object `{"a": "} ``` {} ```"}` the cascade on
the fenced wrapping extracts the *empty* object (the lazy fenced-group
regexes lock onto the brace/backtick pattern inside the string literal),
while the cascade on the bare serialization parses the original object. -/
theorem fenced_extraction_counterexample :
    JsonE.extractJsonL (JsonE.wrapFence (JsonE.dumpsV JsonE.jCE)) = some (.obj []) ∧
    JsonE.extractJsonL (JsonE.dumpsV JsonE.jCE) = some JsonE.jCE ∧
    JsonE.EJson.obj ([] : List (List Char × JsonE.EJson)) ≠ JsonE.jCE := by
  refine ⟨by with_unfolding_all rfl, by with_unfolding_all rfl, ?_⟩
  intro h
  simp [JsonE.jCE] at h

/-- A digit character differs (as `==`) from any non-digit character. -/
theorem beq_false_of_isDigit (c x : Char) (hx : x.isDigit = false) (h : c.isDigit = true) :
    (c == x) = false := by
  by_cases hcx : c = x
  · subst hcx
    rw [h] at hx
    exact absurd hx (by simp)
  · exact beq_eq_false_iff_ne.mpr hcx

/-- A digit character is none of the parser's structural characters and is
not JSON whitespace. -/
theorem digit_not_special (c : Char) (h : c.isDigit = true) :
    JsonE.isJsonWs c = false ∧ JsonE.isPyWs c = false ∧ (c == ']') = false
      ∧ (c == rbrace) = false ∧ (c == ',') = false ∧ (c == 'n') = false
      ∧ (c == 't') = false ∧ (c == 'f') = false ∧ (c == dquote) = false
      ∧ (c == '[') = false ∧ (c == lbrace) = false ∧ (c == '-') = false := by
  refine ⟨?_, ?_, ?_, ?_, ?_, ?_, ?_, ?_, ?_, ?_, ?_, ?_⟩
  · simp [JsonE.isJsonWs, beq_false_of_isDigit c ' ' (by decide) h,
      beq_false_of_isDigit c nlChar (by decide) h,
      beq_false_of_isDigit c crChar (by decide) h,
      beq_false_of_isDigit c tabChar (by decide) h]
  · simp [JsonE.isPyWs, beq_false_of_isDigit c ' ' (by decide) h,
      beq_false_of_isDigit c nlChar (by decide) h,
      beq_false_of_isDigit c crChar (by decide) h,
      beq_false_of_isDigit c tabChar (by decide) h,
      beq_false_of_isDigit c ffChar (by decide) h,
      beq_false_of_isDigit c vtChar (by decide) h]
  · exact beq_false_of_isDigit c ']' (by decide) h
  · exact beq_false_of_isDigit c rbrace (by decide) h
  · exact beq_false_of_isDigit c ',' (by decide) h
  · exact beq_false_of_isDigit c 'n' (by decide) h
  · exact beq_false_of_isDigit c 't' (by decide) h
  · exact beq_false_of_isDigit c 'f' (by decide) h
  · exact beq_false_of_isDigit c dquote (by decide) h
  · exact beq_false_of_isDigit c '[' (by decide) h
  · exact beq_false_of_isDigit c lbrace (by decide) h
  · exact beq_false_of_isDigit c '-' (by decide) h

/-- `digitVal` inverts `digitCh` below ten. -/
theorem digitVal_digitCh (d : ℕ) (h : d < 10) : JsonE.digitVal (JsonE.digitCh d) = d := by
  interval_cases d <;> decide

/-- `digitCh` of a value below ten is a digit character. -/
theorem isDigit_digitCh (d : ℕ) (h : d < 10) : (JsonE.digitCh d).isDigit = true := by
  interval_cases d <;> decide

/-- The fuelled digit extraction agrees with `Nat.digits 10` when given
enough fuel. -/
theorem digitsRev_eq_digits (f n : ℕ) (h : n ≤ f) : JsonE.digitsRev f n = Nat.digits 10 n := by
  induction f generalizing n with
  | zero =>
    have : n = 0 := by omega
    subst this
    simp [JsonE.digitsRev]
  | succ f ih =>
    by_cases hn : n = 0
    · subst hn
      simp [JsonE.digitsRev]
    · rw [JsonE.digitsRev, if_neg hn, Nat.digits_def' (by norm_num : 1 < 10) (by omega), ih]
      have : n / 10 < n := Nat.div_lt_self (by omega) (by norm_num)
      omega

/-- Every character of a printed natural number is a digit. -/
theorem dumpsNat_digits (n : ℕ) : ∀ c ∈ JsonE.dumpsNat n, c.isDigit = true := by
  intro c hc
  unfold JsonE.dumpsNat at hc
  by_cases hn : n = 0
  · rw [if_pos hn] at hc
    simp at hc
    subst hc
    decide
  · rw [if_neg hn] at hc
    rw [List.mem_reverse, List.mem_map] at hc
    obtain ⟨d, hd, rfl⟩ := hc
    rw [digitsRev_eq_digits n n le_rfl] at hd
    exact isDigit_digitCh d (Nat.digits_lt_base (by norm_num) hd)

/-- Folding the printed digits (most significant first) reconstructs the
value, with an accumulator. -/
theorem foldl_digits (ds : List ℕ) (h : ∀ d ∈ ds, d < 10) : ∀ acc : ℕ,
    List.foldl (fun a c => a * 10 + JsonE.digitVal c) acc ((ds.map JsonE.digitCh).reverse)
      = acc * 10 ^ ds.length + Nat.ofDigits 10 ds := by
  induction ds with
  | nil => intro acc; simp
  | cons d ds ih =>
    intro acc
    have hd : d < 10 := h d (by simp)
    have hds : ∀ x ∈ ds, x < 10 := fun x hx => h x (by simp [hx])
    simp only [List.map_cons, List.reverse_cons, List.foldl_append, List.foldl_cons,
      List.foldl_nil, ih hds acc, digitVal_digitCh d hd, Nat.ofDigits_cons, List.length_cons]
    ring

/-- `natFromDigits` inverts `dumpsNat`. -/
theorem natFromDigits_dumpsNat (n : ℕ) : JsonE.natFromDigits (JsonE.dumpsNat n) = n := by
  unfold JsonE.dumpsNat JsonE.natFromDigits
  by_cases hn : n = 0
  · rw [if_pos hn]
    subst hn
    decide
  · rw [if_neg hn, digitsRev_eq_digits n n le_rfl,
      foldl_digits (Nat.digits 10 n) (fun d hd => Nat.digits_lt_base (by norm_num) hd) 0]
    simp [Nat.ofDigits_digits]

/-- `dumpsNat` is a nonempty digit string. -/
theorem dumpsNat_shape (n : ℕ) :
    ∃ c cs, JsonE.dumpsNat n = c :: cs ∧ c.isDigit = true := by
  have hne : JsonE.dumpsNat n ≠ [] := by
    unfold JsonE.dumpsNat
    by_cases hn : n = 0
    · rw [if_pos hn]
      simp
    · rw [if_neg hn]
      simp only [ne_eq, List.reverse_eq_nil_iff, List.map_eq_nil_iff]
      rw [digitsRev_eq_digits n n le_rfl]
      exact Nat.digits_ne_nil_iff_ne_zero.mpr hn
  obtain ⟨c, cs, hc⟩ := List.exists_cons_of_ne_nil hne
  exact ⟨c, cs, hc, dumpsNat_digits n c (by rw [hc]; simp)⟩

/-- `escChar` either produces a two-character escape that `unescChar`
inverts, or passes the character through (which is then neither a quote nor
a backslash). -/
theorem escChar_spec (c : Char) :
    (∃ e, JsonE.escChar c = [bslash, e] ∧ JsonE.unescChar e = some c) ∨
    (JsonE.escChar c = [c] ∧ (c == dquote) = false ∧ (c == bslash) = false) := by
  unfold JsonE.escChar
  by_cases h1 : (c == dquote) = true
  · rw [if_pos h1]
    exact Or.inl ⟨dquote, rfl, by rw [eq_of_beq h1]; decide⟩
  · rw [if_neg h1]
    by_cases h2 : (c == bslash) = true
    · rw [if_pos h2]
      exact Or.inl ⟨bslash, rfl, by rw [eq_of_beq h2]; decide⟩
    · rw [if_neg h2]
      by_cases h3 : (c == nlChar) = true
      · rw [if_pos h3]
        exact Or.inl ⟨'n', rfl, by rw [eq_of_beq h3]; decide⟩
      · rw [if_neg h3]
        by_cases h4 : (c == tabChar) = true
        · rw [if_pos h4]
          exact Or.inl ⟨'t', rfl, by rw [eq_of_beq h4]; decide⟩
        · rw [if_neg h4]
          by_cases h5 : (c == crChar) = true
          · rw [if_pos h5]
            exact Or.inl ⟨'r', rfl, by rw [eq_of_beq h5]; decide⟩
          · rw [if_neg h5]
            exact Or.inr ⟨rfl, Bool.not_eq_true _ ▸ eq_false_of_ne_true h1,
              Bool.not_eq_true _ ▸ eq_false_of_ne_true h2⟩

/-- The string parser inverts the escaper: reading an escaped body followed
by a closing quote yields the body and the remainder. -/
theorem parseStr_escape (s : List Char) : ∀ rest,
    JsonE.parseStr (JsonE.escapeStr s ++ (dquote :: rest)) = some (s, rest) := by
  induction s with
  | nil =>
    intro rest
    show JsonE.parseStr (dquote :: rest) = some ([], rest)
    rw [JsonE.parseStr.eq_def]
    simp
  | cons c s ih =>
    intro rest
    have hesc : JsonE.escapeStr (c :: s) = JsonE.escChar c ++ JsonE.escapeStr s := rfl
    rw [hesc, List.append_assoc]
    rcases escChar_spec c with ⟨e, he, hu⟩ | ⟨he, h1, h2⟩
    · rw [he]
      show JsonE.parseStr (bslash :: e :: (JsonE.escapeStr s ++ (dquote :: rest)))
        = some (c :: s, rest)
      rw [JsonE.parseStr.eq_def]
      simp only [show (bslash == dquote) = false from by decide, Bool.false_eq_true, if_false,
        show (bslash == bslash) = true from by decide, if_true, hu, ih rest]
    · rw [he]
      show JsonE.parseStr (c :: (JsonE.escapeStr s ++ (dquote :: rest))) = some (c :: s, rest)
      rw [JsonE.parseStr.eq_def]
      simp only [h1, h2, Bool.false_eq_true, if_false, ih rest]

/-- Every dumped value starts with a character that is not whitespace and
not one of the list/object terminators or the separator comma. -/
theorem dumpsV_head (j : JsonE.EJson) :
    ∃ c cs, JsonE.dumpsV j = c :: cs ∧ JsonE.isJsonWs c = false ∧ (c == ']') = false
      ∧ (c == rbrace) = false ∧ (c == ',') = false := by
  cases j with
  | null => exact ⟨'n', _, rfl, by decide, by decide, by decide, by decide⟩
  | bool b =>
    cases b with
    | true => exact ⟨'t', _, rfl, by decide, by decide, by decide, by decide⟩
    | false => exact ⟨'f', _, rfl, by decide, by decide, by decide, by decide⟩
  | num n =>
    show ∃ c cs, JsonE.dumpsInt n = c :: cs ∧ _
    unfold JsonE.dumpsInt
    by_cases hn : n < 0
    · rw [if_pos hn]
      exact ⟨'-', _, rfl, by decide, by decide, by decide, by decide⟩
    · rw [if_neg hn]
      obtain ⟨c, cs, hc, hd⟩ := dumpsNat_shape n.toNat
      have hs := digit_not_special c hd
      exact ⟨c, cs, hc, hs.1, hs.2.2.1, hs.2.2.2.1, hs.2.2.2.2.1⟩
  | str s => exact ⟨dquote, _, rfl, by decide, by decide, by decide, by decide⟩
  | arr l => exact ⟨'[', _, rfl, by decide, by decide, by decide, by decide⟩
  | obj l => exact ⟨lbrace, _, rfl, by decide, by decide, by decide, by decide⟩

/-- `takeWhile`/`dropWhile` split an all-true prefix followed by a
false-headed tail. -/
theorem takeWhile_dropWhile_append (p : Char → Bool) (a : List Char) :
    ∀ t, (∀ c ∈ a, p c = true) → (∀ c, t.head? = some c → p c = false) →
    (a ++ t).takeWhile p = a ∧ (a ++ t).dropWhile p = t := by
  induction a with
  | nil =>
    intro t _ ht
    cases t with
    | nil => simp
    | cons c r =>
      have := ht c rfl
      simp [List.takeWhile, List.dropWhile, this]
  | cons c a ih =>
    intro t ha ht
    have hc : p c = true := ha c (by simp)
    have ha2 : ∀ x ∈ a, p x = true := fun x hx => ha x (by simp [hx])
    obtain ⟨h1, h2⟩ := ih t ha2 ht
    simp [List.takeWhile, List.dropWhile, hc, h1, h2]

/-- `skipWs` is the identity on a non-whitespace-headed list. -/
theorem skipWs_cons_nows (c : Char) (r : List Char) (h : JsonE.isJsonWs c = false) :
    JsonE.skipWs (c :: r) = c :: r := by
  simp [JsonE.skipWs, List.dropWhile, h]

/-- `skipWs` drops a whitespace head. -/
theorem skipWs_cons_ws (c : Char) (r : List Char) (h : JsonE.isJsonWs c = true) :
    JsonE.skipWs (c :: r) = JsonE.skipWs r := by
  simp [JsonE.skipWs, List.dropWhile, h]

/-- Dumped array elements decompose as head value plus separator-led tail. -/
theorem dumpsElems_decomp : ∀ (r : List JsonE.EJson) (x : JsonE.EJson),
    JsonE.dumpsElems (x :: r) = JsonE.dumpsV x ++ JsonE.sepDumpElems r := by
  intro r
  induction r with
  | nil => intro x; simp [JsonE.dumpsElems, JsonE.sepDumpElems]
  | cons y r2 ih =>
    intro x
    show JsonE.dumpsV x ++ ',' :: ' ' :: JsonE.dumpsElems (y :: r2) = _
    rw [ih y]
    simp [JsonE.sepDumpElems]

/-- Dumped object members decompose as head pair plus separator-led tail. -/
theorem dumpsMembers_decomp : ∀ (r : List (List Char × JsonE.EJson)) (k : List Char)
    (v : JsonE.EJson),
    JsonE.dumpsMembers ((k, v) :: r) = JsonE.dumpPair (k, v) ++ JsonE.sepDumpMembers r := by
  intro r
  induction r with
  | nil => intro k v; simp [JsonE.dumpsMembers, JsonE.sepDumpMembers, JsonE.dumpPair]
  | cons p r2 ih =>
    intro k v
    obtain ⟨k2, v2⟩ := p
    show (dquote :: (JsonE.escapeStr k ++ dquote :: ':' :: ' ' :: JsonE.dumpsV v))
        ++ ',' :: ' ' :: JsonE.dumpsMembers ((k2, v2) :: r2) = _
    rw [ih k2 v2]
    simp [JsonE.sepDumpMembers, JsonE.dumpPair]

/-- `parseVal` on the `null` keyword. -/
theorem parseVal_null (f : ℕ) (rest : List Char) :
    JsonE.parseVal (f + 1) ('n' :: 'u' :: 'l' :: 'l' :: rest) = some (.null, rest) := by
  rw [JsonE.parseVal.eq_def]
  simp

/-- `parseVal` on the `true` keyword. -/
theorem parseVal_true (f : ℕ) (rest : List Char) :
    JsonE.parseVal (f + 1) ('t' :: 'r' :: 'u' :: 'e' :: rest) = some (.bool true, rest) := by
  rw [JsonE.parseVal.eq_def]
  simp

/-- `parseVal` on the `false` keyword. -/
theorem parseVal_false (f : ℕ) (rest : List Char) :
    JsonE.parseVal (f + 1) ('f' :: 'a' :: 'l' :: 's' :: 'e' :: rest)
      = some (.bool false, rest) := by
  rw [JsonE.parseVal.eq_def]
  simp

/-- `parseVal` on a digit-headed input: maximal digit munch. -/
theorem parseVal_digit (f : ℕ) (c : Char) (t : List Char) (h : c.isDigit = true) :
    JsonE.parseVal (f + 1) (c :: t)
      = some (.num ((JsonE.natFromDigits ((c :: t).takeWhile Char.isDigit)) : ℤ),
          (c :: t).dropWhile Char.isDigit) := by
  have hs := digit_not_special c h
  rw [JsonE.parseVal.eq_def]
  simp only [hs.2.2.2.2.2.1, hs.2.2.2.2.2.2.1, hs.2.2.2.2.2.2.2.1, hs.2.2.2.2.2.2.2.2.1,
    hs.2.2.2.2.2.2.2.2.2.1, hs.2.2.2.2.2.2.2.2.2.2.1, hs.2.2.2.2.2.2.2.2.2.2.2, h,
    Bool.false_eq_true, if_false, if_true]

/-- `parseVal` on a minus-headed input. -/
theorem parseVal_neg (f : ℕ) (t : List Char) :
    JsonE.parseVal (f + 1) ('-' :: t)
      = (if (t.takeWhile Char.isDigit).isEmpty then none
         else some (.num (-(JsonE.natFromDigits (t.takeWhile Char.isDigit) : ℤ)),
           t.dropWhile Char.isDigit)) := by
  rw [JsonE.parseVal.eq_def]
  simp only [show ('-' == 'n') = false from by decide,
    show ('-' == 't') = false from by decide,
    show ('-' == 'f') = false from by decide,
    show ('-' == dquote) = false from by decide,
    show ('-' == '[') = false from by decide,
    show ('-' == lbrace) = false from by decide,
    show ('-' == '-') = true from by decide,
    Bool.false_eq_true, if_false, if_true]

/-- `parseVal` on a quote-headed escaped string. -/
theorem parseVal_str (f : ℕ) (s rest : List Char) :
    JsonE.parseVal (f + 1) (dquote :: (JsonE.escapeStr s ++ (dquote :: rest)))
      = some (.str s, rest) := by
  rw [JsonE.parseVal.eq_def]
  simp only [show (dquote == 'n') = false from by decide,
    show (dquote == 't') = false from by decide,
    show (dquote == 'f') = false from by decide,
    show (dquote == dquote) = true from by decide,
    Bool.false_eq_true, if_false, if_true, parseStr_escape s rest]

/-- `parseVal` on an opening bracket. -/
theorem parseVal_arr (f : ℕ) (t : List Char) :
    JsonE.parseVal (f + 1) ('[' :: t)
      = (match JsonE.parseElems f (JsonE.skipWs t) with
         | some (l, rest) => some (.arr l, rest)
         | none => none) := by
  rw [JsonE.parseVal.eq_def]
  simp only [show ('[' == 'n') = false from by decide,
    show ('[' == 't') = false from by decide,
    show ('[' == 'f') = false from by decide,
    show ('[' == dquote) = false from by decide,
    show ('[' == '[') = true from by decide,
    Bool.false_eq_true, if_false, if_true]

/-- `parseVal` on an opening brace. -/
theorem parseVal_obj (f : ℕ) (t : List Char) :
    JsonE.parseVal (f + 1) (lbrace :: t)
      = (match JsonE.parseMembers f (JsonE.skipWs t) with
         | some (l, rest) => some (.obj l, rest)
         | none => none) := by
  rw [JsonE.parseVal.eq_def]
  simp only [show (lbrace == 'n') = false from by decide,
    show (lbrace == 't') = false from by decide,
    show (lbrace == 'f') = false from by decide,
    show (lbrace == dquote) = false from by decide,
    show (lbrace == '[') = false from by decide,
    show (lbrace == lbrace) = true from by decide,
    Bool.false_eq_true, if_false, if_true]

/-- `parseElems` closes an empty array at `]`. -/
theorem parseElems_close (f : ℕ) (rest : List Char) :
    JsonE.parseElems (f + 1) (']' :: rest) = some ([], rest) := by
  rw [JsonE.parseElems.eq_def]
  simp

/-- `parseElems` on a non-`]` head parses a first element. -/
theorem parseElems_cons_step (f : ℕ) (c : Char) (t : List Char) (h : (c == ']') = false) :
    JsonE.parseElems (f + 1) (c :: t)
      = (match JsonE.parseVal f (c :: t) with
         | some (v, rest) =>
           (match JsonE.parseRestElems f (JsonE.skipWs rest) with
            | some (vs, rest2) => some (v :: vs, rest2)
            | none => none)
         | none => none) := by
  rw [JsonE.parseElems.eq_def]
  simp [h]

/-- `parseRestElems` closes at `]`. -/
theorem parseRestElems_close (f : ℕ) (rest : List Char) :
    JsonE.parseRestElems (f + 1) (']' :: rest) = some ([], rest) := by
  rw [JsonE.parseRestElems.eq_def]
  simp

/-- `parseRestElems` consumes a comma and parses the next element. -/
theorem parseRestElems_comma (f : ℕ) (t : List Char) :
    JsonE.parseRestElems (f + 1) (',' :: t)
      = (match JsonE.parseVal f (JsonE.skipWs t) with
         | some (v, rest) =>
           (match JsonE.parseRestElems f (JsonE.skipWs rest) with
            | some (vs, rest2) => some (v :: vs, rest2)
            | none => none)
         | none => none) := by
  rw [JsonE.parseRestElems.eq_def]
  simp

/-- `parseMembers` closes an empty object at `}`. -/
theorem parseMembers_close (f : ℕ) (rest : List Char) :
    JsonE.parseMembers (f + 1) (rbrace :: rest) = some ([], rest) := by
  rw [JsonE.parseMembers.eq_def]
  simp

/-- `parseMembers` on a non-`}` head parses a first member. -/
theorem parseMembers_cons_step (f : ℕ) (c : Char) (t : List Char) (h : (c == rbrace) = false) :
    JsonE.parseMembers (f + 1) (c :: t)
      = (match JsonE.parsePair f (c :: t) with
         | some (kv, rest) =>
           (match JsonE.parseRestMembers f (JsonE.skipWs rest) with
            | some (kvs, rest2) => some (kv :: kvs, rest2)
            | none => none)
         | none => none) := by
  rw [JsonE.parseMembers.eq_def]
  simp [h]

/-- `parseRestMembers` closes at `}`. -/
theorem parseRestMembers_close (f : ℕ) (rest : List Char) :
    JsonE.parseRestMembers (f + 1) (rbrace :: rest) = some ([], rest) := by
  rw [JsonE.parseRestMembers.eq_def]
  simp

/-- `parseRestMembers` consumes a comma and parses the next member. -/
theorem parseRestMembers_comma (f : ℕ) (t : List Char) :
    JsonE.parseRestMembers (f + 1) (',' :: t)
      = (match JsonE.parsePair f (JsonE.skipWs t) with
         | some (kv, rest) =>
           (match JsonE.parseRestMembers f (JsonE.skipWs rest) with
            | some (kvs, rest2) => some (kv :: kvs, rest2)
            | none => none)
         | none => none) := by
  rw [JsonE.parseRestMembers.eq_def]
  simp [show (',' == rbrace) = false from by decide, show (',' == ',') = true from by decide]

/-- `parsePair` on a quote-headed member. -/
theorem parsePair_quote (f : ℕ) (t : List Char) :
    JsonE.parsePair (f + 1) (dquote :: t)
      = (match JsonE.parseStr t with
         | some (k, rest) =>
           (match JsonE.skipWs rest with
            | [] => none
            | c2 :: r2 =>
              if c2 == ':' then
                match JsonE.parseVal f (JsonE.skipWs r2) with
                | some (v, rest2) => some ((k, v), rest2)
                | none => none
              else none)
         | none => none) := by
  rw [JsonE.parsePair.eq_def]
  simp

/-- Every value size is at least one. -/
theorem one_le_sizeW (j : JsonE.EJson) : 1 ≤ JsonE.sizeW j := by
  cases j <;> simp [JsonE.sizeW]

/-- Every element-list size is at least one. -/
theorem one_le_sizeL (l : List JsonE.EJson) : 1 ≤ JsonE.sizeL l := by
  cases l with
  | nil => simp [JsonE.sizeL]
  | cons x r =>
    simp only [JsonE.sizeL]
    omega

/-- Every member-list size is at least one. -/
theorem one_le_sizeP (l : List (List Char × JsonE.EJson)) : 1 ≤ JsonE.sizeP l := by
  cases l with
  | nil => simp [JsonE.sizeP]
  | cons p r =>
    obtain ⟨k, v⟩ := p
    simp [JsonE.sizeP]
    omega

/-- A successor of the fuel exists whenever a positive size bounds it. -/
theorem exists_succ_of_le {a f : ℕ} (h1 : 1 ≤ a) (h : a ≤ f) : ∃ g, f = g + 1 :=
  ⟨f - 1, by omega⟩

/-- The head of a separator-led element tail is `,` or `]`: not a digit and
not whitespace. -/
theorem sepElems_head (r : List JsonE.EJson) (rest : List Char) :
    ∀ c, (JsonE.sepDumpElems r ++ (']' :: rest)).head? = some c →
      c.isDigit = false ∧ JsonE.isJsonWs c = false := by
  intro c hc
  cases r with
  | nil =>
    simp [JsonE.sepDumpElems] at hc
    subst hc
    exact ⟨by decide, by decide⟩
  | cons y r2 =>
    simp [JsonE.sepDumpElems] at hc
    subst hc
    exact ⟨by decide, by decide⟩

/-- The head of a separator-led member tail is `,` or `}`: not a digit and
not whitespace. -/
theorem sepMembers_head (r : List (List Char × JsonE.EJson)) (rest : List Char) :
    ∀ c, (JsonE.sepDumpMembers r ++ (rbrace :: rest)).head? = some c →
      c.isDigit = false ∧ JsonE.isJsonWs c = false := by
  intro c hc
  cases r with
  | nil =>
    simp [JsonE.sepDumpMembers] at hc
    subst hc
    exact ⟨by decide, by decide⟩
  | cons p r2 =>
    simp [JsonE.sepDumpMembers] at hc
    subst hc
    exact ⟨by decide, by decide⟩

/-- `dropWhile` is the identity when the head (if any) fails the predicate. -/
theorem dropWhile_of_head (p : Char → Bool) (l : List Char)
    (h : ∀ c, l.head? = some c → p c = false) : l.dropWhile p = l := by
  cases l with
  | nil => rfl
  | cons c r =>
    have hc := h c rfl
    simp [List.dropWhile_cons, hc]

/-- `skipWs` is the identity when the head (if any) is not whitespace. -/
theorem skipWs_of_head (l : List Char)
    (h : ∀ c, l.head? = some c → JsonE.isJsonWs c = false) : JsonE.skipWs l = l :=
  dropWhile_of_head _ l h

/-- `parsePair` recovers a dumped member given that `parseVal` recovers the
dumped value. -/
theorem parsePair_dump (g : ℕ) (k : List Char) (v : JsonE.EJson) (X : List Char)
    (hV : JsonE.parseVal g (JsonE.dumpsV v ++ X) = some (v, X)) :
    JsonE.parsePair (g + 1) (JsonE.dumpPair (k, v) ++ X) = some ((k, v), X) := by
  show JsonE.parsePair (g + 1)
      ((dquote :: (JsonE.escapeStr k ++ dquote :: ':' :: ' ' :: JsonE.dumpsV v)) ++ X) = _
  simp only [List.cons_append, List.append_assoc]
  rw [parsePair_quote]
  have hS := parseStr_escape k (':' :: ' ' :: (JsonE.dumpsV v ++ X))
  have hsk1 : JsonE.skipWs (':' :: ' ' :: (JsonE.dumpsV v ++ X))
      = ':' :: ' ' :: (JsonE.dumpsV v ++ X) := skipWs_cons_nows ':' _ (by decide)
  have hsk2 : JsonE.skipWs (' ' :: (JsonE.dumpsV v ++ X)) = JsonE.dumpsV v ++ X := by
    rw [skipWs_cons_ws ' ' _ (by decide)]
    apply skipWs_of_head
    intro c hc
    obtain ⟨c0, cs, hc0, hws, h2, h3, h4⟩ := dumpsV_head v
    rw [hc0] at hc
    simp only [List.cons_append, List.head?_cons, Option.some.injEq] at hc
    rw [← hc]
    exact hws
  simp only [hS, hsk1, show (':' == ':') = true from by decide, if_true, hsk2, hV]

/-- The parser recovers every serialized value: on `dumpsV j ++ rest` with a
non-digit head on `rest`, `parseVal` with fuel at least `sizeW j` returns
`(j, rest)`, and likewise for the element- and member-list parsers against
their serializations. -/
theorem parse_dumps_strong : ∀ N : ℕ,
    (∀ j : JsonE.EJson, JsonE.sizeW j ≤ N → ∀ f rest, JsonE.sizeW j ≤ f →
      (∀ c, rest.head? = some c → c.isDigit = false) →
      JsonE.parseVal f (JsonE.dumpsV j ++ rest) = some (j, rest)) ∧
    (∀ l : List JsonE.EJson, JsonE.sizeL l ≤ N → ∀ f rest, JsonE.sizeL l ≤ f →
      JsonE.parseElems f (JsonE.dumpsElems l ++ (']' :: rest)) = some (l, rest)) ∧
    (∀ l : List JsonE.EJson, JsonE.sizeL l ≤ N → ∀ f rest, JsonE.sizeL l ≤ f →
      JsonE.parseRestElems f (JsonE.sepDumpElems l ++ (']' :: rest)) = some (l, rest)) ∧
    (∀ l : List (List Char × JsonE.EJson), JsonE.sizeP l ≤ N → ∀ f rest, JsonE.sizeP l ≤ f →
      JsonE.parseMembers f (JsonE.dumpsMembers l ++ (rbrace :: rest)) = some (l, rest)) ∧
    (∀ l : List (List Char × JsonE.EJson), JsonE.sizeP l ≤ N → ∀ f rest, JsonE.sizeP l ≤ f →
      JsonE.parseRestMembers f (JsonE.sepDumpMembers l ++ (rbrace :: rest))
        = some (l, rest)) := by
  intro N
  induction N using Nat.strong_induction_on with
  | _ N IH =>
  refine ⟨?_, ?_, ?_, ?_, ?_⟩
  · -- parseVal against dumpsV
    intro j hjN f rest hf hrest
    cases j with
    | null =>
      obtain ⟨f', rfl⟩ := exists_succ_of_le (one_le_sizeW _) hf
      show JsonE.parseVal (f' + 1) ('n' :: 'u' :: 'l' :: 'l' :: rest) = some (.null, rest)
      exact parseVal_null f' rest
    | bool b =>
      obtain ⟨f', rfl⟩ := exists_succ_of_le (one_le_sizeW _) hf
      cases b with
      | true =>
        show JsonE.parseVal (f' + 1) ('t' :: 'r' :: 'u' :: 'e' :: rest)
          = some (.bool true, rest)
        exact parseVal_true f' rest
      | false =>
        show JsonE.parseVal (f' + 1) ('f' :: 'a' :: 'l' :: 's' :: 'e' :: rest)
          = some (.bool false, rest)
        exact parseVal_false f' rest
    | num n =>
      obtain ⟨f', rfl⟩ := exists_succ_of_le (one_le_sizeW _) hf
      by_cases hn : n < 0
      · have hd : JsonE.dumpsV (JsonE.EJson.num n) = '-' :: JsonE.dumpsNat n.natAbs := by
          simp [JsonE.dumpsV, JsonE.dumpsInt, hn]
        rw [hd, List.cons_append, parseVal_neg]
        obtain ⟨h1, h2⟩ := takeWhile_dropWhile_append Char.isDigit
          (JsonE.dumpsNat n.natAbs) rest (dumpsNat_digits _) hrest
        rw [h1, h2]
        obtain ⟨c, cs, hcc, hcd⟩ := dumpsNat_shape n.natAbs
        have hie : (JsonE.dumpsNat n.natAbs).isEmpty = false := by rw [hcc]; rfl
        rw [hie]
        simp only [Bool.false_eq_true, if_false]
        rw [natFromDigits_dumpsNat]
        have hval : -((n.natAbs : ℕ) : ℤ) = n := by omega
        rw [hval]
      · have hd : JsonE.dumpsV (JsonE.EJson.num n) = JsonE.dumpsNat n.toNat := by
          simp [JsonE.dumpsV, JsonE.dumpsInt, hn]
        obtain ⟨c, cs, hcc, hcd⟩ := dumpsNat_shape n.toNat
        obtain ⟨h1, h2⟩ := takeWhile_dropWhile_append Char.isDigit
          (JsonE.dumpsNat n.toNat) rest (dumpsNat_digits _) hrest
        rw [hd, hcc, List.cons_append, parseVal_digit f' c (cs ++ rest) hcd,
          ← List.cons_append, ← hcc, h1, h2, natFromDigits_dumpsNat]
        have hval : ((n.toNat : ℕ) : ℤ) = n := by omega
        rw [hval]
    | str s =>
      obtain ⟨f', rfl⟩ := exists_succ_of_le (one_le_sizeW _) hf
      show JsonE.parseVal (f' + 1)
        ((dquote :: (JsonE.escapeStr s ++ [dquote])) ++ rest) = some (.str s, rest)
      rw [List.cons_append, List.append_assoc, List.singleton_append]
      exact parseVal_str f' s rest
    | arr l =>
      have hsz : JsonE.sizeW (JsonE.EJson.arr l) = 1 + JsonE.sizeL l := rfl
      rw [hsz] at hjN hf
      obtain ⟨f', rfl⟩ := exists_succ_of_le (by omega) hf
      show JsonE.parseVal (f' + 1)
        (('[' :: (JsonE.dumpsElems l ++ [']'])) ++ rest) = some (.arr l, rest)
      rw [List.cons_append, List.append_assoc, List.singleton_append, parseVal_arr]
      have hskip : JsonE.skipWs (JsonE.dumpsElems l ++ (']' :: rest))
          = JsonE.dumpsElems l ++ (']' :: rest) := by
        apply skipWs_of_head
        intro c hc
        cases l with
        | nil =>
          rw [show JsonE.dumpsElems [] = [] from rfl, List.nil_append,
            List.head?_cons] at hc
          simp only [Option.some.injEq] at hc
          rw [← hc]
          decide
        | cons x r =>
          obtain ⟨c0, cs, hc0, hws, h2, h3, h4⟩ := dumpsV_head x
          rw [dumpsElems_decomp r x, hc0] at hc
          simp only [List.cons_append, List.head?_cons, Option.some.injEq] at hc
          rw [← hc]
          exact hws
      rw [hskip]
      have hL : JsonE.parseElems f' (JsonE.dumpsElems l ++ (']' :: rest))
          = some (l, rest) :=
        (IH (N - 1) (by omega)).2.1 l (by omega) f' rest (by omega)
      simp only [hL]
    | obj l =>
      have hsz : JsonE.sizeW (JsonE.EJson.obj l) = 1 + JsonE.sizeP l := rfl
      rw [hsz] at hjN hf
      obtain ⟨f', rfl⟩ := exists_succ_of_le (by omega) hf
      show JsonE.parseVal (f' + 1)
        ((lbrace :: (JsonE.dumpsMembers l ++ [rbrace])) ++ rest) = some (.obj l, rest)
      rw [List.cons_append, List.append_assoc, List.singleton_append, parseVal_obj]
      have hskip : JsonE.skipWs (JsonE.dumpsMembers l ++ (rbrace :: rest))
          = JsonE.dumpsMembers l ++ (rbrace :: rest) := by
        apply skipWs_of_head
        intro c hc
        cases l with
        | nil =>
          rw [show JsonE.dumpsMembers [] = [] from rfl, List.nil_append,
            List.head?_cons] at hc
          simp only [Option.some.injEq] at hc
          rw [← hc]
          decide
        | cons p r =>
          obtain ⟨k, v⟩ := p
          rw [dumpsMembers_decomp r k v] at hc
          simp only [JsonE.dumpPair, List.cons_append, List.head?_cons,
            Option.some.injEq] at hc
          rw [← hc]
          decide
      rw [hskip]
      have hM : JsonE.parseMembers f' (JsonE.dumpsMembers l ++ (rbrace :: rest))
          = some (l, rest) :=
        (IH (N - 1) (by omega)).2.2.2.1 l (by omega) f' rest (by omega)
      simp only [hM]
  · -- parseElems against dumpsElems
    intro l hlN f rest hf
    obtain ⟨f', rfl⟩ := exists_succ_of_le (one_le_sizeL l) hf
    cases l with
    | nil =>
      show JsonE.parseElems (f' + 1) (([] : List Char) ++ (']' :: rest)) = some ([], rest)
      rw [List.nil_append]
      exact parseElems_close f' rest
    | cons x r =>
      have hsz : JsonE.sizeL (x :: r) = 1 + JsonE.sizeW x + JsonE.sizeL r := rfl
      rw [hsz] at hlN hf
      have h1r := one_le_sizeL r
      have h1x := one_le_sizeW x
      rw [dumpsElems_decomp r x, List.append_assoc]
      obtain ⟨c0, cs, hc0, hws, hne, h3, h4⟩ := dumpsV_head x
      rw [hc0, List.cons_append, parseElems_cons_step f' c0 _ hne,
        ← List.cons_append, ← hc0]
      have hV : JsonE.parseVal f'
          (JsonE.dumpsV x ++ (JsonE.sepDumpElems r ++ (']' :: rest)))
          = some (x, JsonE.sepDumpElems r ++ (']' :: rest)) :=
        (IH (N - 1) (by omega)).1 x (by omega) f' _ (by omega)
          (fun c hc => (sepElems_head r rest c hc).1)
      have hskip : JsonE.skipWs (JsonE.sepDumpElems r ++ (']' :: rest))
          = JsonE.sepDumpElems r ++ (']' :: rest) :=
        skipWs_of_head _ (fun c hc => (sepElems_head r rest c hc).2)
      have hR : JsonE.parseRestElems f' (JsonE.sepDumpElems r ++ (']' :: rest))
          = some (r, rest) :=
        (IH (N - 1) (by omega)).2.2.1 r (by omega) f' rest (by omega)
      simp only [hV, hskip, hR]
  · -- parseRestElems against sepDumpElems
    intro l hlN f rest hf
    obtain ⟨f', rfl⟩ := exists_succ_of_le (one_le_sizeL l) hf
    cases l with
    | nil =>
      show JsonE.parseRestElems (f' + 1) (([] : List Char) ++ (']' :: rest))
        = some ([], rest)
      rw [List.nil_append]
      exact parseRestElems_close f' rest
    | cons y r =>
      have hsz : JsonE.sizeL (y :: r) = 1 + JsonE.sizeW y + JsonE.sizeL r := rfl
      rw [hsz] at hlN hf
      have h1r := one_le_sizeL r
      have h1y := one_le_sizeW y
      show JsonE.parseRestElems (f' + 1)
        ((',' :: ' ' :: (JsonE.dumpsV y ++ JsonE.sepDumpElems r)) ++ (']' :: rest))
        = some (y :: r, rest)
      rw [List.cons_append, List.cons_append, List.append_assoc, parseRestElems_comma]
      have hskip1 : JsonE.skipWs
          (' ' :: (JsonE.dumpsV y ++ (JsonE.sepDumpElems r ++ (']' :: rest))))
          = JsonE.dumpsV y ++ (JsonE.sepDumpElems r ++ (']' :: rest)) := by
        rw [skipWs_cons_ws ' ' _ (by decide)]
        apply skipWs_of_head
        intro c hc
        obtain ⟨c0, cs, hc0, hws, h2, h3, h4⟩ := dumpsV_head y
        rw [hc0] at hc
        simp only [List.cons_append, List.head?_cons, Option.some.injEq] at hc
        rw [← hc]
        exact hws
      rw [hskip1]
      have hV : JsonE.parseVal f'
          (JsonE.dumpsV y ++ (JsonE.sepDumpElems r ++ (']' :: rest)))
          = some (y, JsonE.sepDumpElems r ++ (']' :: rest)) :=
        (IH (N - 1) (by omega)).1 y (by omega) f' _ (by omega)
          (fun c hc => (sepElems_head r rest c hc).1)
      have hskip2 : JsonE.skipWs (JsonE.sepDumpElems r ++ (']' :: rest))
          = JsonE.sepDumpElems r ++ (']' :: rest) :=
        skipWs_of_head _ (fun c hc => (sepElems_head r rest c hc).2)
      have hR : JsonE.parseRestElems f' (JsonE.sepDumpElems r ++ (']' :: rest))
          = some (r, rest) :=
        (IH (N - 1) (by omega)).2.2.1 r (by omega) f' rest (by omega)
      simp only [hV, hskip2, hR]
  · -- parseMembers against dumpsMembers
    intro l hlN f rest hf
    obtain ⟨f', rfl⟩ := exists_succ_of_le (one_le_sizeP l) hf
    cases l with
    | nil =>
      show JsonE.parseMembers (f' + 1) (([] : List Char) ++ (rbrace :: rest))
        = some ([], rest)
      rw [List.nil_append]
      exact parseMembers_close f' rest
    | cons p r =>
      obtain ⟨k, v⟩ := p
      have hsz : JsonE.sizeP ((k, v) :: r) = 2 + JsonE.sizeW v + JsonE.sizeP r := rfl
      rw [hsz] at hlN hf
      have h1v := one_le_sizeW v
      have h1r := one_le_sizeP r
      obtain ⟨g, rfl⟩ : ∃ g, f' = g + 1 := ⟨f' - 1, by omega⟩
      rw [dumpsMembers_decomp r k v, List.append_assoc]
      have hcs : JsonE.dumpPair (k, v)
          = dquote :: (JsonE.escapeStr k ++ dquote :: ':' :: ' ' :: JsonE.dumpsV v) := rfl
      rw [hcs, List.cons_append, parseMembers_cons_step (g + 1) dquote _ (by decide),
        ← List.cons_append, ← hcs]
      have hV : JsonE.parseVal g
          (JsonE.dumpsV v ++ (JsonE.sepDumpMembers r ++ (rbrace :: rest)))
          = some (v, JsonE.sepDumpMembers r ++ (rbrace :: rest)) :=
        (IH (N - 1) (by omega)).1 v (by omega) g _ (by omega)
          (fun c hc => (sepMembers_head r rest c hc).1)
      have hP := parsePair_dump g k v (JsonE.sepDumpMembers r ++ (rbrace :: rest)) hV
      have hskip : JsonE.skipWs (JsonE.sepDumpMembers r ++ (rbrace :: rest))
          = JsonE.sepDumpMembers r ++ (rbrace :: rest) :=
        skipWs_of_head _ (fun c hc => (sepMembers_head r rest c hc).2)
      have hRM : JsonE.parseRestMembers (g + 1)
          (JsonE.sepDumpMembers r ++ (rbrace :: rest)) = some (r, rest) :=
        (IH (N - 1) (by omega)).2.2.2.2 r (by omega) (g + 1) rest (by omega)
      simp only [hP, hskip, hRM]
  · -- parseRestMembers against sepDumpMembers
    intro l hlN f rest hf
    obtain ⟨f', rfl⟩ := exists_succ_of_le (one_le_sizeP l) hf
    cases l with
    | nil =>
      show JsonE.parseRestMembers (f' + 1) (([] : List Char) ++ (rbrace :: rest))
        = some ([], rest)
      rw [List.nil_append]
      exact parseRestMembers_close f' rest
    | cons p r =>
      obtain ⟨k, v⟩ := p
      have hsz : JsonE.sizeP ((k, v) :: r) = 2 + JsonE.sizeW v + JsonE.sizeP r := rfl
      rw [hsz] at hlN hf
      have h1v := one_le_sizeW v
      have h1r := one_le_sizeP r
      obtain ⟨g, rfl⟩ : ∃ g, f' = g + 1 := ⟨f' - 1, by omega⟩
      show JsonE.parseRestMembers (g + 1 + 1)
        ((',' :: ' ' :: (JsonE.dumpPair (k, v) ++ JsonE.sepDumpMembers r))
          ++ (rbrace :: rest)) = some ((k, v) :: r, rest)
      rw [List.cons_append, List.cons_append, List.append_assoc, parseRestMembers_comma]
      have hskip0 : JsonE.skipWs
          (' ' :: (JsonE.dumpPair (k, v) ++ (JsonE.sepDumpMembers r ++ (rbrace :: rest))))
          = JsonE.dumpPair (k, v) ++ (JsonE.sepDumpMembers r ++ (rbrace :: rest)) := by
        rw [skipWs_cons_ws ' ' _ (by decide)]
        apply skipWs_of_head
        intro c hc
        simp only [JsonE.dumpPair, List.cons_append, List.head?_cons,
          Option.some.injEq] at hc
        rw [← hc]
        decide
      rw [hskip0]
      have hV : JsonE.parseVal g
          (JsonE.dumpsV v ++ (JsonE.sepDumpMembers r ++ (rbrace :: rest)))
          = some (v, JsonE.sepDumpMembers r ++ (rbrace :: rest)) :=
        (IH (N - 1) (by omega)).1 v (by omega) g _ (by omega)
          (fun c hc => (sepMembers_head r rest c hc).1)
      have hP := parsePair_dump g k v (JsonE.sepDumpMembers r ++ (rbrace :: rest)) hV
      have hskip : JsonE.skipWs (JsonE.sepDumpMembers r ++ (rbrace :: rest))
          = JsonE.sepDumpMembers r ++ (rbrace :: rest) :=
        skipWs_of_head _ (fun c hc => (sepMembers_head r rest c hc).2)
      have hRM : JsonE.parseRestMembers (g + 1)
          (JsonE.sepDumpMembers r ++ (rbrace :: rest)) = some (r, rest) :=
        (IH (N - 1) (by omega)).2.2.2.2 r (by omega) (g + 1) rest (by omega)
      simp only [hP, hskip, hRM]

/-- The fuel bounds `sizeW`/`sizeL`/`sizeP` are dominated by (twice) the
length of the corresponding serialization. -/
theorem size_le_len : ∀ N : ℕ,
    (∀ j : JsonE.EJson, JsonE.sizeW j ≤ N →
      JsonE.sizeW j + 1 ≤ 2 * (JsonE.dumpsV j).length) ∧
    (∀ l : List JsonE.EJson, JsonE.sizeL l ≤ N →
      JsonE.sizeL l ≤ 2 * (JsonE.sepDumpElems l).length + 1) ∧
    (∀ l : List (List Char × JsonE.EJson), JsonE.sizeP l ≤ N →
      JsonE.sizeP l ≤ 2 * (JsonE.sepDumpMembers l).length + 1) := by
  intro N
  induction N using Nat.strong_induction_on with
  | _ N IH =>
  refine ⟨?_, ?_, ?_⟩
  · intro j hjN
    cases j with
    | null => simp [JsonE.sizeW, JsonE.dumpsV, JsonE.litNull]
    | bool b => cases b <;> simp [JsonE.sizeW, JsonE.dumpsV, JsonE.litTrue, JsonE.litFalse]
    | num n =>
      have h1 : 1 ≤ (JsonE.dumpsV (JsonE.EJson.num n)).length := by
        obtain ⟨c, cs, hc, _, _, _, _⟩ := dumpsV_head (JsonE.EJson.num n)
        rw [hc]
        simp
      have h2 : JsonE.sizeW (JsonE.EJson.num n) = 1 := rfl
      omega
    | str s =>
      have h2 : JsonE.sizeW (JsonE.EJson.str s) = 1 := rfl
      have h1 : (JsonE.dumpsV (JsonE.EJson.str s)).length
          = 2 + (JsonE.escapeStr s).length := by
        show (dquote :: (JsonE.escapeStr s ++ [dquote])).length = _
        simp
        omega
      omega
    | arr l =>
      have hsz : JsonE.sizeW (JsonE.EJson.arr l) = 1 + JsonE.sizeL l := rfl
      rw [hsz] at hjN ⊢
      have h1r := one_le_sizeL l
      have hlen : (JsonE.dumpsV (JsonE.EJson.arr l)).length
          = 2 + (JsonE.dumpsElems l).length := by
        show ('[' :: (JsonE.dumpsElems l ++ [']'])).length = _
        simp
        omega
      rw [hlen]
      cases l with
      | nil =>
        have : JsonE.sizeL ([] : List JsonE.EJson) = 1 := rfl
        have h0 : (JsonE.dumpsElems ([] : List JsonE.EJson)).length = 0 := rfl
        omega
      | cons x r =>
        have hd : JsonE.sizeL (x :: r) = 1 + JsonE.sizeW x + JsonE.sizeL r := rfl
        have hlen2 : (JsonE.dumpsElems (x :: r)).length
            = (JsonE.dumpsV x).length + (JsonE.sepDumpElems r).length := by
          rw [dumpsElems_decomp r x]
          simp
        have hx := (IH (N - 1) (by omega)).1 x (by omega)
        have hr := (IH (N - 1) (by omega)).2.1 r (by omega)
        omega
    | obj l =>
      have hsz : JsonE.sizeW (JsonE.EJson.obj l) = 1 + JsonE.sizeP l := rfl
      rw [hsz] at hjN ⊢
      have h1r := one_le_sizeP l
      have hlen : (JsonE.dumpsV (JsonE.EJson.obj l)).length
          = 2 + (JsonE.dumpsMembers l).length := by
        show (lbrace :: (JsonE.dumpsMembers l ++ [rbrace])).length = _
        simp
        omega
      rw [hlen]
      cases l with
      | nil =>
        have : JsonE.sizeP ([] : List (List Char × JsonE.EJson)) = 1 := rfl
        have h0 : (JsonE.dumpsMembers ([] : List (List Char × JsonE.EJson))).length = 0 := rfl
        omega
      | cons p r =>
        obtain ⟨k, v⟩ := p
        have hd : JsonE.sizeP ((k, v) :: r) = 2 + JsonE.sizeW v + JsonE.sizeP r := rfl
        have hlen2 : (JsonE.dumpsMembers ((k, v) :: r)).length
            = (JsonE.dumpPair (k, v)).length + (JsonE.sepDumpMembers r).length := by
          rw [dumpsMembers_decomp r k v]
          simp
        have hpl : (JsonE.dumpPair (k, v)).length
            = 4 + (JsonE.escapeStr k).length + (JsonE.dumpsV v).length := by
          show (dquote :: (JsonE.escapeStr k ++ dquote :: ':' :: ' ' :: JsonE.dumpsV v)).length = _
          simp
          omega
        have hv := (IH (N - 1) (by omega)).1 v (by omega)
        have hr := (IH (N - 1) (by omega)).2.2 r (by omega)
        omega
  · intro l hlN
    cases l with
    | nil =>
      have h0 : JsonE.sizeL ([] : List JsonE.EJson) = 1 := rfl
      omega
    | cons y r =>
      have hd : JsonE.sizeL (y :: r) = 1 + JsonE.sizeW y + JsonE.sizeL r := rfl
      rw [hd] at hlN ⊢
      have h1y := one_le_sizeW y
      have h1r := one_le_sizeL r
      have hlen : (JsonE.sepDumpElems (y :: r)).length
          = 2 + (JsonE.dumpsV y).length + (JsonE.sepDumpElems r).length := by
        show (',' :: ' ' :: (JsonE.dumpsV y ++ JsonE.sepDumpElems r)).length = _
        simp
        omega
      have hy := (IH (N - 1) (by omega)).1 y (by omega)
      have hr := (IH (N - 1) (by omega)).2.1 r (by omega)
      omega
  · intro l hlN
    cases l with
    | nil =>
      have h0 : JsonE.sizeP ([] : List (List Char × JsonE.EJson)) = 1 := rfl
      omega
    | cons p r =>
      obtain ⟨k, v⟩ := p
      have hd : JsonE.sizeP ((k, v) :: r) = 2 + JsonE.sizeW v + JsonE.sizeP r := rfl
      rw [hd] at hlN ⊢
      have h1v := one_le_sizeW v
      have h1r := one_le_sizeP r
      have hpl : (JsonE.dumpPair (k, v)).length
          = 4 + (JsonE.escapeStr k).length + (JsonE.dumpsV v).length := by
        show (dquote :: (JsonE.escapeStr k ++ dquote :: ':' :: ' ' :: JsonE.dumpsV v)).length = _
        simp
        omega
      have hlen : (JsonE.sepDumpMembers ((k, v) :: r)).length
          = 2 + (JsonE.dumpPair (k, v)).length + (JsonE.sepDumpMembers r).length := by
        show (',' :: ' ' :: (JsonE.dumpPair (k, v) ++ JsonE.sepDumpMembers r)).length = _
        simp
        omega
      have hv := (IH (N - 1) (by omega)).1 v (by omega)
      have hr := (IH (N - 1) (by omega)).2.2 r (by omega)
      omega

/-- `json.loads` inverts `json.dumps` in the embedding: the fuelled parser,
with the fuel `loadsL` supplies, recovers any dumped value exactly. -/
theorem loadsL_dumpsV (j : JsonE.EJson) : JsonE.loadsL (JsonE.dumpsV j) = some j := by
  unfold JsonE.loadsL
  have hskip : JsonE.skipWs (JsonE.dumpsV j) = JsonE.dumpsV j := by
    apply skipWs_of_head
    intro c hc
    obtain ⟨c0, cs, hc0, hws, _, _, _⟩ := dumpsV_head j
    rw [hc0] at hc
    simp only [List.head?_cons, Option.some.injEq] at hc
    rw [← hc]
    exact hws
  rw [hskip]
  have hb := (size_le_len (JsonE.sizeW j)).1 j le_rfl
  have hV := (parse_dumps_strong (JsonE.sizeW j)).1 j le_rfl
    (2 * (JsonE.dumpsV j).length + 4) [] (by omega)
    (fun c hc => by simp at hc)
  rw [List.append_nil] at hV
  simp only [hV, JsonE.skipWs, List.dropWhile_nil, List.isEmpty_nil, if_true]

/-- A list contains its last element. -/
theorem mem_of_getLast_eq : ∀ (l : List Char) (a : Char), l.getLast? = some a → a ∈ l := by
  intro l
  induction l with
  | nil =>
    intro a h
    simp at h
  | cons c r ih =>
    intro a h
    cases r with
    | nil =>
      simp at h
      simp [h]
    | cons d r2 =>
      rw [List.getLast?_cons_cons] at h
      exact List.mem_cons_of_mem c (ih a h)

/-- Dropping a head cannot create a backtick triple. -/
theorem hasTriple_tail (c : Char) (l : List Char)
    (h : JsonE.hasTriple (c :: l) = false) : JsonE.hasTriple l = false := by
  cases l with
  | nil => rfl
  | cons d r =>
    cases r with
    | nil => rfl
    | cons e r2 =>
      have he : JsonE.hasTriple (c :: d :: e :: r2)
          = ((c == btick && d == btick && e == btick)
            || JsonE.hasTriple (d :: e :: r2)) := rfl
      rw [he] at h
      exact (Bool.or_eq_false_iff.mp h).2

/-- `dropWhile` cannot create a backtick triple. -/
theorem hasTriple_dropWhile (p : Char → Bool) (m : List Char)
    (h : JsonE.hasTriple m = false) : JsonE.hasTriple (m.dropWhile p) = false := by
  induction m with
  | nil => exact h
  | cons c r ih =>
    rw [List.dropWhile_cons]
    by_cases hp : p c = true
    · rw [if_pos hp]
      exact ih (hasTriple_tail c r h)
    · rw [if_neg hp]
      exact h

/-- In a triple-free text ending in `}`, appending the closing-fence tail
never satisfies the lookahead `\s*` + three backticks. -/
theorem fenceFollow_concat_false (m : List Char) (hlast : m.getLast? = some rbrace)
    (hnt : JsonE.hasTriple m = false) :
    JsonE.fenceFollow (m ++ [nlChar, btick, btick, btick]) = false := by
  have hmem : rbrace ∈ m := mem_of_getLast_eq m rbrace hlast
  have hdne : m.dropWhile JsonE.isPyWs ≠ [] := by
    intro hnil
    rw [List.dropWhile_eq_nil_iff] at hnil
    have := hnil rbrace hmem
    exact absurd this (by decide)
  have hdie : (m.dropWhile JsonE.isPyWs).isEmpty = false := by
    cases hdw : m.dropWhile JsonE.isPyWs with
    | nil => exact absurd hdw hdne
    | cons a b => rfl
  have hnt2 : JsonE.hasTriple (m.dropWhile JsonE.isPyWs) = false :=
    hasTriple_dropWhile JsonE.isPyWs m hnt
  unfold JsonE.fenceFollow
  rw [List.dropWhile_append, hdie]
  simp only [Bool.false_eq_true, if_false]
  cases hdw : m.dropWhile JsonE.isPyWs with
  | nil => exact absurd hdw hdne
  | cons x d1 =>
    rw [hdw] at hnt2
    cases d1 with
    | nil =>
      show (x == btick && nlChar == btick && btick == btick) = false
      rw [show (nlChar == btick) = false from by decide]
      simp
    | cons y d2 =>
      cases d2 with
      | nil =>
        show (x == btick && y == btick && nlChar == btick) = false
        rw [show (nlChar == btick) = false from by decide]
        simp
      | cons z d3 =>
        show (x == btick && y == btick && z == btick) = false
        have he : JsonE.hasTriple (x :: y :: z :: d3)
            = ((x == btick && y == btick && z == btick)
              || JsonE.hasTriple (y :: z :: d3)) := rfl
        rw [he] at hnt2
        exact (Bool.or_eq_false_iff.mp hnt2).1

/-- One unfolding step of the lazy fenced group grab. -/
theorem grabGroup_cons (c : Char) (rest : List Char) :
    JsonE.grabGroup (c :: rest)
      = (if c == rbrace && JsonE.fenceFollow rest then some [c]
         else match JsonE.grabGroup rest with
              | some g => some (c :: g)
              | none => none) := rfl

/-- On a triple-free body ending in `}` followed by the closing fence, the
lazy group grab returns exactly the body. -/
theorem grabGroup_concat : ∀ (m : List Char), m.getLast? = some rbrace →
    JsonE.hasTriple m = false →
    JsonE.grabGroup (m ++ [nlChar, btick, btick, btick]) = some m := by
  intro m
  induction m with
  | nil =>
    intro h _
    simp at h
  | cons c m' ih =>
    intro hlast hnt
    cases m' with
    | nil =>
      simp at hlast
      subst hlast
      decide
    | cons d m'' =>
      have hlast' : (d :: m'').getLast? = some rbrace := by
        rwa [List.getLast?_cons_cons] at hlast
      have hnt' : JsonE.hasTriple (d :: m'') = false := hasTriple_tail c _ hnt
      have hrec := ih hlast' hnt'
      have hF : JsonE.fenceFollow ((d :: m'') ++ [nlChar, btick, btick, btick]) = false :=
        fenceFollow_concat_false (d :: m'') hlast' hnt'
      rw [List.cons_append, grabGroup_cons, hF, Bool.and_false]
      simp only [Bool.false_eq_true, if_false, hrec]

/-- `str.strip()` is the identity when neither end is whitespace. -/
theorem pyStrip_id (l : List Char)
    (h1 : ∀ c, l.head? = some c → JsonE.isPyWs c = false)
    (h2 : ∀ c, l.getLast? = some c → JsonE.isPyWs c = false) : JsonE.pyStrip l = l := by
  unfold JsonE.pyStrip
  rw [dropWhile_of_head _ l h1]
  have e2 : l.reverse.dropWhile JsonE.isPyWs = l.reverse := by
    apply dropWhile_of_head
    intro c hc
    rw [List.head?_reverse] at hc
    exact h2 c hc
  rw [e2, List.reverse_reverse]

/-- `parseVal` fails on a head character that opens no JSON value. -/
theorem parseVal_bad_head (f : ℕ) (c : Char) (t : List Char)
    (h1 : (c == 'n') = false) (h2 : (c == 't') = false) (h3 : (c == 'f') = false)
    (h4 : (c == dquote) = false) (h5 : (c == '[') = false) (h6 : (c == lbrace) = false)
    (h7 : (c == '-') = false) (h8 : c.isDigit = false) :
    JsonE.parseVal f (c :: t) = none := by
  cases f with
  | zero => rfl
  | succ g =>
    rw [JsonE.parseVal.eq_def]
    simp only [h1, h2, h3, h4, h5, h6, h7, h8, Bool.false_eq_true, if_false]

/-- One unfolding step of `re.search`. -/
theorem searchBy_cons (mA : List Char → Option (List Char)) (c : Char) (r : List Char) :
    JsonE.searchBy mA (c :: r)
      = (match mA (c :: r) with
         | some g => some g
         | none => JsonE.searchBy mA r) := rfl

/-- The fence-json prefix test succeeds on a wrapped text. -/
theorem startsWith_fencejson (X : List Char) :
    ExtractE.startsWithCh
      (btick :: btick :: btick :: 'j' :: 's' :: 'o' :: 'n' :: nlChar :: X)
      [btick, btick, btick, 'j', 's', 'o', 'n'] = true := rfl

/-- Dropping the matched 7-character prefix of a wrapped text. -/
theorem drop7_fencejson (X : List Char) :
    (btick :: btick :: btick :: 'j' :: 's' :: 'o' :: 'n' :: nlChar :: X).drop 7
      = nlChar :: X := rfl

/-- C9 (amended): for every JSON object whose serialization contains no
triple-backtick sequence, the extraction cascade applied to the serialization
wrapped in a fenced ```json block returns the same parsed object as the
cascade applied to the bare serialization, and both equal the object itself.
(The unrestricted claim is refuted by `fenced_extraction_counterexample`.) -/
theorem fenced_extraction_amended (kvs : List (List Char × JsonE.EJson))
    (hnt : JsonE.hasTriple (JsonE.dumpsV (JsonE.EJson.obj kvs)) = false) :
    JsonE.extractJsonL (JsonE.wrapFence (JsonE.dumpsV (JsonE.EJson.obj kvs)))
      = JsonE.extractJsonL (JsonE.dumpsV (JsonE.EJson.obj kvs))
    ∧ JsonE.extractJsonL (JsonE.dumpsV (JsonE.EJson.obj kvs))
      = some (JsonE.EJson.obj kvs) := by
  have hd : JsonE.dumpsV (JsonE.EJson.obj kvs)
      = lbrace :: (JsonE.dumpsMembers kvs ++ [rbrace]) := rfl
  have hloads : JsonE.loadsL (JsonE.dumpsV (JsonE.EJson.obj kvs))
      = some (JsonE.EJson.obj kvs) := loadsL_dumpsV _
  have hlastm : (JsonE.dumpsMembers kvs ++ [rbrace]).getLast? = some rbrace :=
    List.getLast?_concat _
  have hne : (JsonE.dumpsV (JsonE.EJson.obj kvs)).isEmpty = false := by
    rw [hd]
    rfl
  have hps : JsonE.pyStrip (JsonE.dumpsV (JsonE.EJson.obj kvs))
      = JsonE.dumpsV (JsonE.EJson.obj kvs) := by
    apply pyStrip_id
    · intro c hc
      rw [hd, List.head?_cons, Option.some.injEq] at hc
      rw [← hc]
      decide
    · intro c hc
      rw [hd, ← List.cons_append, List.getLast?_concat, Option.some.injEq] at hc
      rw [← hc]
      decide
  have hbare : JsonE.extractJsonL (JsonE.dumpsV (JsonE.EJson.obj kvs))
      = some (JsonE.EJson.obj kvs) := by
    unfold JsonE.extractJsonL
    simp only [hne, Bool.false_eq_true, if_false, hps, hloads]
  have hw : JsonE.wrapFence (JsonE.dumpsV (JsonE.EJson.obj kvs))
      = btick :: btick :: btick :: 'j' :: 's' :: 'o' :: 'n' :: nlChar ::
        (JsonE.dumpsV (JsonE.EJson.obj kvs) ++ [nlChar, btick, btick, btick]) := by
    simp [JsonE.wrapFence]
  have hw2 : JsonE.wrapFence (JsonE.dumpsV (JsonE.EJson.obj kvs))
      = (btick :: btick :: btick :: 'j' :: 's' :: 'o' :: 'n' :: nlChar ::
        (JsonE.dumpsV (JsonE.EJson.obj kvs) ++ [nlChar, btick, btick])) ++ [btick] := by
    simp [JsonE.wrapFence]
  have hnt' : JsonE.hasTriple (JsonE.dumpsMembers kvs ++ [rbrace]) = false := by
    apply hasTriple_tail lbrace
    rw [← hd]
    exact hnt
  have hgrab : JsonE.grabGroup ((JsonE.dumpsMembers kvs ++ [rbrace])
      ++ [nlChar, btick, btick, btick]) = some (JsonE.dumpsMembers kvs ++ [rbrace]) :=
    grabGroup_concat _ hlastm hnt'
  have hdw : (nlChar :: (JsonE.dumpsV (JsonE.EJson.obj kvs)
        ++ [nlChar, btick, btick, btick])).dropWhile JsonE.isPyWs
      = lbrace :: ((JsonE.dumpsMembers kvs ++ [rbrace])
        ++ [nlChar, btick, btick, btick]) := by
    rw [List.dropWhile_cons, if_pos (by decide), hd, List.cons_append,
      List.dropWhile_cons, if_neg (by decide)]
  have hmatch : JsonE.matchFenceJsonAt (JsonE.wrapFence (JsonE.dumpsV (JsonE.EJson.obj kvs)))
      = some (JsonE.dumpsV (JsonE.EJson.obj kvs)) := by
    rw [hw]
    unfold JsonE.matchFenceJsonAt
    simp only [startsWith_fencejson, drop7_fencejson, eq_self_iff_true, if_true, hdw,
      beq_self_eq_true, hgrab]
    rw [hd]
  have hsearch : JsonE.searchBy JsonE.matchFenceJsonAt
      (JsonE.wrapFence (JsonE.dumpsV (JsonE.EJson.obj kvs)))
      = some (JsonE.dumpsV (JsonE.EJson.obj kvs)) := by
    rw [hw, searchBy_cons, ← hw]
    simp only [hmatch]
  have hloadw : JsonE.loadsL (JsonE.wrapFence (JsonE.dumpsV (JsonE.EJson.obj kvs)))
      = none := by
    unfold JsonE.loadsL
    have hsk : JsonE.skipWs (JsonE.wrapFence (JsonE.dumpsV (JsonE.EJson.obj kvs)))
        = JsonE.wrapFence (JsonE.dumpsV (JsonE.EJson.obj kvs)) := by
      apply skipWs_of_head
      intro c hc
      rw [hw, List.head?_cons, Option.some.injEq] at hc
      rw [← hc]
      decide
    rw [hsk]
    conv_lhs => rw [hw]
    rw [parseVal_bad_head _ btick _ (by decide) (by decide) (by decide) (by decide)
      (by decide) (by decide) (by decide) (by decide)]
  have hpsw : JsonE.pyStrip (JsonE.wrapFence (JsonE.dumpsV (JsonE.EJson.obj kvs)))
      = JsonE.wrapFence (JsonE.dumpsV (JsonE.EJson.obj kvs)) := by
    apply pyStrip_id
    · intro c hc
      rw [hw, List.head?_cons, Option.some.injEq] at hc
      rw [← hc]
      decide
    · intro c hc
      rw [hw2, List.getLast?_concat, Option.some.injEq] at hc
      rw [← hc]
      decide
  have hnew : (JsonE.wrapFence (JsonE.dumpsV (JsonE.EJson.obj kvs))).isEmpty = false := by
    rw [hw]
    rfl
  have hwrapped : JsonE.extractJsonL (JsonE.wrapFence (JsonE.dumpsV (JsonE.EJson.obj kvs)))
      = some (JsonE.EJson.obj kvs) := by
    unfold JsonE.extractJsonL
    simp only [hnew, Bool.false_eq_true, if_false, hpsw, hloadw, hsearch,
      Option.some_bind, hloads]
  exact ⟨hwrapped.trans hbare.symm, hbare⟩

/-- Witness for C9's amended theorem at the object `{"a": 1}`. -/
theorem fenced_extraction_amended_witness :
    JsonE.extractJsonL (JsonE.wrapFence (JsonE.dumpsV
      (JsonE.EJson.obj [(['a'], JsonE.EJson.num 1)])))
      = some (JsonE.EJson.obj [(['a'], JsonE.EJson.num 1)]) := by
  have h := fenced_extraction_amended [(['a'], JsonE.EJson.num 1)]
    (by with_unfolding_all decide)
  rw [h.1, h.2]
